import Mathlib

/-!
Verification of the RLPx transport layer of taiyuechain (`p2p/rlpx.go`).

Bytes are modelled as `List Nat`; overflow is taken explicitly with `% 256`
where the Go code truncates to a byte.  The external cryptographic
primitives (Keccak256, the AES block/CTR ciphers, ECDH, ECDSA sign and
recover, ECIES encrypt and decrypt, RLP struct coding, certificate
verification) are pluggable collaborators selected at build time in this
repository, so they enter the embedding as explicit function parameters;
every theorem states the exact pointwise facts about them that it uses.
A Keccak MAC hash object (`sha3` state that is written to and summed) is
modelled by the list of bytes absorbed so far: `Write` appends and
`Sum(nil)` applies the abstract hash to the absorbed list.
-/

namespace Rlpx

abbrev Bytes := List Nat

/-- Constant `maxUint24 = ^uint32(0) >> 8` from rlpx.go. -/
def maxUint24 : Nat := 2 ^ 24 - 1

/-- Constant `sskLen = 16` from rlpx.go. -/
def sskLen : Nat := 16

/-- Constant `shaLen = 32` from rlpx.go. -/
def shaLen : Nat := 32

/-- Constant `TaiRLPXVersion = 15` from rlpx.go. -/
def TaiRLPXVersion : Nat := 15

/-- Go helper `xor(one, other)` from rlpx.go: a byte slice of length
`len(one)` whose entry `i` is `one[i] ^ other[i]`.  (The Go code indexes
`other` up to `len(one)`; every call site passes `other` at least as long
as `one`, and out-of-range reads are modelled as 0.) -/
def xorBytes (one other : Bytes) : Bytes :=
  (List.range one.length).map fun i => one.getD i 0 ^^^ other.getD i 0

@[simp] theorem xorBytes_length (one other : Bytes) :
    (xorBytes one other).length = one.length := by
  simp [xorBytes]

theorem xorBytes_getD (one other : Bytes) (i : Nat) (h : i < one.length) :
    (xorBytes one other).getD i 0 = one.getD i 0 ^^^ other.getD i 0 := by
  simp [xorBytes, List.getD, List.getElem?_map, List.getElem?_range, h]

/-- CTR-mode keystream encryption: byte `i` of the input is XORed with
keystream byte `pos + i`.  Models `cipher.NewCTR(...).XORKeyStream` where
`ks` is the keystream of the AES session cipher; encryption and decryption
are this same operation. -/
def ctrEnc (ks : Nat → Nat) : Nat → Bytes → Bytes
  | _, [] => []
  | pos, a :: t => (a ^^^ ks pos) :: ctrEnc ks (pos + 1) t

@[simp] theorem ctrEnc_nil (ks : Nat → Nat) (pos : Nat) : ctrEnc ks pos [] = [] := rfl

@[simp] theorem ctrEnc_cons (ks : Nat → Nat) (pos a : Nat) (t : Bytes) :
    ctrEnc ks pos (a :: t) = (a ^^^ ks pos) :: ctrEnc ks (pos + 1) t := rfl

@[simp] theorem ctrEnc_length (ks : Nat → Nat) (pos : Nat) (b : Bytes) :
    (ctrEnc ks pos b).length = b.length := by
  induction b generalizing pos with
  | nil => rfl
  | cons a t ih => simp [ctrEnc, ih]

theorem ctrEnc_append (ks : Nat → Nat) (pos : Nat) (b c : Bytes) :
    ctrEnc ks pos (b ++ c) = ctrEnc ks pos b ++ ctrEnc ks (pos + b.length) c := by
  induction b generalizing pos with
  | nil => simp
  | cons a t ih =>
      simp only [List.cons_append, ctrEnc_cons, ih (pos + 1), List.length_cons]
      have : pos + 1 + t.length = pos + (t.length + 1) := by omega
      rw [this]

/-- Decrypting with the same keystream at the same position inverts encryption. -/
theorem ctrEnc_involutive (ks : Nat → Nat) (pos : Nat) (b : Bytes) :
    ctrEnc ks pos (ctrEnc ks pos b) = b := by
  induction b generalizing pos with
  | nil => rfl
  | cons a t ih => simp [ctrEnc, Nat.xor_cancel_right, ih]

/-- `putInt24(v, b)` from rlpx.go: writes `byte(v>>16), byte(v>>8), byte(v)`
into the first three bytes. -/
def putInt24 (v : Nat) : Bytes :=
  [v / 65536 % 256, v / 256 % 256, v % 256]

/-- `readInt24(b)` from rlpx.go: `uint32(b[2]) | uint32(b[1])<<8 | uint32(b[0])<<16`. -/
def readInt24 (b : Bytes) : Nat :=
  b.getD 2 0 + b.getD 1 0 * 256 + b.getD 0 0 * 65536

theorem readInt24_putInt24 (v : Nat) (hv : v < 2 ^ 24) (rest : Bytes) :
    readInt24 (putInt24 v ++ rest) = v := by
  simp only [putInt24, readInt24, List.cons_append, List.getD_cons_succ,
    List.getD_cons_zero]
  have h1 : v / 65536 % 256 = v / 65536 := Nat.mod_eq_of_lt (by omega)
  rw [h1]
  omega

/-- Big-endian base-256 digits, with structural fuel (first argument) so that
the kernel can evaluate it; `beBytesF f n` is the digit list of `n` whenever
`n ≤ f`. -/
def beBytesF : Nat → Nat → Bytes
  | 0, _ => []
  | _ + 1, 0 => []
  | f + 1, n + 1 => beBytesF f ((n + 1) / 256) ++ [(n + 1) % 256]

/-- Minimal big-endian byte representation of a natural number. -/
def beBytes (n : Nat) : Bytes := beBytesF n n

theorem beBytesF_fuel : ∀ f g n : Nat, n ≤ f → n ≤ g → beBytesF f n = beBytesF g n := by
  intro f
  induction f with
  | zero =>
      intro g n hf _
      interval_cases n
      cases g
      · rfl
      · rfl
  | succ f ih =>
      intro g n hf hg
      match g, n with
      | 0, n => interval_cases n; rfl
      | g + 1, 0 => rfl
      | g + 1, n + 1 =>
          have hd : (n + 1) / 256 ≤ n := Nat.lt_succ_iff.mp (Nat.div_lt_self (Nat.succ_pos n) (by omega))
          simp only [beBytesF]
          rw [ih g ((n + 1) / 256) (by omega) (by omega)]

theorem beBytes_succ (n : Nat) :
    beBytes (n + 1) = beBytes ((n + 1) / 256) ++ [(n + 1) % 256] := by
  have hd : (n + 1) / 256 ≤ n := Nat.lt_succ_iff.mp (Nat.div_lt_self (Nat.succ_pos n) (by omega))
  simp only [beBytes, beBytesF]
  rw [beBytesF_fuel n ((n + 1) / 256) ((n + 1) / 256) (by omega) (le_refl _)]

/-- Big-endian value of a digit list. -/
def beVal (bs : Bytes) : Nat := bs.foldl (fun acc d => acc * 256 + d) 0

theorem beVal_foldl (bs : Bytes) (a : Nat) :
    bs.foldl (fun acc d => acc * 256 + d) a = a * 256 ^ bs.length + beVal bs := by
  induction bs generalizing a with
  | nil => simp [beVal]
  | cons d t ih =>
      simp only [List.foldl_cons, beVal, ih (a * 256 + d), ih (0 * 256 + d), List.length_cons]
      ring

theorem beVal_append (bs : Bytes) (d : Nat) :
    beVal (bs ++ [d]) = beVal bs * 256 + d := by
  simp [beVal, List.foldl_append]

theorem beVal_beBytes (n : Nat) : beVal (beBytes n) = n := by
  induction n using Nat.strong_induction_on with
  | _ n ih =>
      match n with
      | 0 => rfl
      | n + 1 =>
          rw [beBytes_succ, beVal_append,
            ih ((n + 1) / 256) (Nat.div_lt_self (Nat.succ_pos n) (by omega))]
          omega

theorem beBytes_length_le (n k : Nat) (h : n < 256 ^ k) : (beBytes n).length ≤ k := by
  induction n using Nat.strong_induction_on generalizing k with
  | _ n ih =>
      match n with
      | 0 => simp [beBytes, beBytesF]
      | n + 1 =>
          have hk : 1 ≤ k := by
            by_contra hc
            interval_cases k
            omega
          rw [beBytes_succ]
          have hdiv : (n + 1) / 256 < 256 ^ (k - 1) := by
            have : n + 1 < 256 ^ (k - 1) * 256 := by
              have : 256 ^ (k - 1) * 256 = 256 ^ k := by
                rw [← pow_succ]
                congr 1
                omega
              omega
            omega
          have := ih ((n + 1) / 256) (Nat.div_lt_self (Nat.succ_pos n) (by omega)) (k - 1) hdiv
          simp only [List.length_append, List.length_singleton]
          omega

/-- Modelled from the spec: canonical RLP encoding of an unsigned integer,
as produced by `rlp.EncodeToBytes(msg.Code)` (package `rlp` of this
repository, not under src/): zero encodes as the empty string `0x80`,
a single byte below `0x80` encodes as itself, larger values as a
`0x80+len` header followed by the minimal big-endian bytes. -/
def rlpEncUint (v : Nat) : Bytes :=
  if v = 0 then [0x80]
  else if v < 0x80 then [v]
  else (0x80 + (beBytes v).length) :: beBytes v

/-- Modelled from the spec: RLP decoding of an unsigned integer from the
front of a byte stream, as `rlp.Decode(content, &msg.Code)` does (package
`rlp` of this repository, not under src/); returns the value and the
unconsumed bytes.  Canonicity checks that can only reject encodings this
development never produces are omitted. -/
def rlpDecUint : Bytes → Option (Nat × Bytes)
  | [] => none
  | b :: rest =>
    if b < 0x80 then some (b, rest)
    else if b ≤ 0xb7 then
      (if b - 0x80 ≤ rest.length then
        some (beVal (rest.take (b - 0x80)), rest.drop (b - 0x80))
      else none)
    else none

theorem rlpEncUint_length_pos (v : Nat) : 0 < (rlpEncUint v).length := by
  unfold rlpEncUint
  split
  · simp
  · split <;> simp

theorem rlpDecUint_rlpEncUint (v : Nat) (hv : v < 2 ^ 64) (r : Bytes) :
    rlpDecUint (rlpEncUint v ++ r) = some (v, r) := by
  unfold rlpEncUint
  by_cases h0 : v = 0
  · subst h0
    simp [rlpDecUint, beVal]
  · by_cases h1 : v < 0x80
    · simp [h0, h1, rlpDecUint]
    · have hlen : (beBytes v).length ≤ 8 := by
        apply beBytes_length_le
        calc v < 2 ^ 64 := hv
        _ = 256 ^ 8 := by norm_num
      simp only [h0, if_false, h1, List.cons_append]
      rw [rlpDecUint]
      have hb1 : ¬ (0x80 + (beBytes v).length < 0x80) := by omega
      have hb2 : 0x80 + (beBytes v).length ≤ 0xb7 := by omega
      simp only [hb1, if_false, hb2, if_true, Nat.add_sub_cancel_left]
      have htk : ((beBytes v ++ r).take (beBytes v).length) = beBytes v := by
        simp [List.take_append]
      have hdr : ((beBytes v ++ r).drop (beBytes v).length) = r := by
        simp [List.drop_append]
      rw [if_pos (by simp), htk, hdr, beVal_beBytes]

/-- External primitives used by the frame codec `rlpxFrameRW`.
`ks` is the keystream of the AES-CTR session cipher (both `enc` and `dec`
are `cipher.NewCTR` over the same key and all-zero IV, so a matched pair
shares one keystream); `keccak` is the MAC hash (`Sum(nil)` of an absorbed
byte list); `blockEnc` is the MAC whitening block cipher (`macCipher`),
applied to the first 16 digest bytes; `compress`, `decodedLen` and
`decompress` model the snappy collaborator. -/
structure FramePrims where
  ks : Nat → Nat
  keccak : Bytes → Bytes
  blockEnc : Bytes → Bytes
  compress : Bytes → Bytes
  decodedLen : Bytes → Option Nat
  decompress : Bytes → Option Bytes

/-- State of one `rlpxFrameRW`: positions of the two CTR stream ciphers and
the absorbed byte lists of the two MAC hash states. -/
structure FrameState where
  encPos : Nat
  decPos : Nat
  egress : Bytes
  ingress : Bytes
  snappy : Bool
deriving DecidableEq, Repr

/-- A message handed to `WriteMsg` / returned by `ReadMsg`; `Size` is the
payload length. -/
structure Msg where
  code : Nat
  payload : Bytes
deriving DecidableEq, Repr

/-- Errors of the frame codec.  `tooLarge` is the FrameTooLarge failure
(`message size overflows uint24`); `plainTooLarge` is
`errPlainMessageTooLarge`; `badHeaderMac` and `badFrameMac` are the two
MacMismatch failures; `eof` stands for a failed `io.ReadFull`; `rlpError`
for a failing message-code decode; `snappyError` for a failing
decompression. -/
inductive FrameErr where
  | tooLarge
  | plainTooLarge
  | badHeaderMac
  | badFrameMac
  | eof
  | rlpError
  | snappyError
deriving DecidableEq, Repr

/-- `updateMAC(mac, block, seed)` from rlpx.go: encrypt the first 16 bytes
of the current digest with the whitening cipher, XOR the result with
`seed`, absorb that into the MAC state, and return the updated state
together with the first 16 bytes of the new digest. -/
def updateMAC (H blockEnc : Bytes → Bytes) (mac seed : Bytes) : Bytes × Bytes :=
  let aesbuf := xorBytes (blockEnc ((H mac).take 16)) seed
  let mac2 := mac ++ aesbuf
  (mac2, (H mac2).take 16)

/-- `zeroHeader = [0xC2, 0x80, 0x80]` from rlpx.go. -/
def zeroHeader : Bytes := [0xC2, 0x80, 0x80]

/-- Zero padding of a frame of content size `n` up to a 16-byte boundary. -/
def padLen (n : Nat) : Nat := if n % 16 = 0 then 0 else 16 - n % 16

/-- `copy` of a byte list into a zeroed 16-byte destination: the result is
always exactly 16 bytes, zero-filled on the right (models writing the
header MAC into `headbuf[16:]`). -/
def fit16 (b : Bytes) : Bytes := (b ++ List.replicate 16 0).take 16

/-- `rlpxFrameRW.WriteMsg` from rlpx.go, with the bytes written to the
connection returned instead of performed: RLP-encode the message code; if
snappy is on, compress the payload (rejecting payloads over `maxUint24`
first); reject frames whose content size overflows 24 bits; build the
16-byte plaintext header (24-bit size, `zeroHeader`, zero fill), encrypt
it in place, MAC it; stream-encrypt `ptype ++ payload ++ padding` while
absorbing the ciphertext into the egress MAC; finally seed the egress MAC
with its own digest and emit the 16-byte frame MAC. -/
def writeFrame (P : FramePrims) (st : FrameState) (msg : Msg) :
    Except FrameErr (FrameState × Bytes) :=
  let ptype := rlpEncUint msg.code
  if st.snappy ∧ msg.payload.length > maxUint24 then .error .plainTooLarge
  else
    let payload := if st.snappy then P.compress msg.payload else msg.payload
    let fsize := ptype.length + payload.length
    if fsize > maxUint24 then .error .tooLarge
    else
      let headPlain := putInt24 fsize ++ zeroHeader ++ List.replicate 10 0
      let headEnc := ctrEnc P.ks st.encPos headPlain
      let hmacRes := updateMAC P.keccak P.blockEnc st.egress headEnc
      let body := ptype ++ payload ++ List.replicate (padLen fsize) 0
      let bodyEnc := ctrEnc P.ks (st.encPos + 16) body
      let eg2 := hmacRes.1 ++ bodyEnc
      let fmacRes := updateMAC P.keccak P.blockEnc eg2 (P.keccak eg2)
      .ok ({ st with encPos := st.encPos + 16 + body.length, egress := fmacRes.1 },
        headEnc ++ fit16 hmacRes.2 ++ bodyEnc ++ fmacRes.2)

/-- `rlpxFrameRW.ReadMsg` from rlpx.go, reading from the front of `input`:
read the 32-byte header block, recompute the header MAC over the received
encrypted header and compare before decrypting; decrypt the header and
take the 24-bit frame size; read the padded frame, absorb it into the
ingress MAC, recompute and compare the frame MAC before decrypting the
content; then decode the message code and, if snappy is on, decompress.
Returns the new state, the message and the unconsumed input. -/
def readFrame (P : FramePrims) (st : FrameState) (input : Bytes) :
    Except FrameErr (FrameState × Msg × Bytes) :=
  if input.length < 32 then .error .eof
  else
    let headEnc := input.take 16
    let hmacRecv := (input.drop 16).take 16
    let rest := input.drop 32
    let hmacRes := updateMAC P.keccak P.blockEnc st.ingress headEnc
    if hmacRes.2 ≠ hmacRecv then .error .badHeaderMac
    else
      let headDec := ctrEnc P.ks st.decPos headEnc
      let fsize := readInt24 headDec
      let rsize := fsize + padLen fsize
      if rest.length < rsize then .error .eof
      else
        let frameEnc := rest.take rsize
        let ing2 := hmacRes.1 ++ frameEnc
        let fmacseed := P.keccak ing2
        let rest2 := rest.drop rsize
        if rest2.length < 16 then .error .eof
        else
          let fmacRecv := rest2.take 16
          let fmacRes := updateMAC P.keccak P.blockEnc ing2 fmacseed
          if fmacRes.2 ≠ fmacRecv then .error .badFrameMac
          else
            let frameDec := ctrEnc P.ks (st.decPos + 16) frameEnc
            match rlpDecUint (frameDec.take fsize) with
            | none => .error .rlpError
            | some (code, payloadRest) =>
              let st2 := { st with decPos := st.decPos + 16 + rsize, ingress := fmacRes.1 }
              let rest3 := rest2.drop 16
              if st.snappy then
                match P.decodedLen payloadRest with
                | none => .error .snappyError
                | some size =>
                  if size > maxUint24 then .error .plainTooLarge
                  else match P.decompress payloadRest with
                    | none => .error .snappyError
                    | some payload => .ok (st2, { code := code, payload := payload }, rest3)
              else .ok (st2, { code := code, payload := payloadRest }, rest3)

/-! Names for the intermediate values of a successful `writeFrame` with
snappy off, used to state equations about it. -/

/-- Frame content size `fsize = len(ptype) + msg.Size`. -/
def wfFsize (msg : Msg) : Nat := (rlpEncUint msg.code).length + msg.payload.length

/-- Plaintext frame header: 24-bit size, `zeroHeader`, zero fill to 16 bytes. -/
def wfHeadPlain (msg : Msg) : Bytes :=
  putInt24 (wfFsize msg) ++ zeroHeader ++ List.replicate 10 0

/-- Encrypted frame header. -/
def wfHeadEnc (P : FramePrims) (st : FrameState) (msg : Msg) : Bytes :=
  ctrEnc P.ks st.encPos (wfHeadPlain msg)

/-- Egress MAC state and tag after absorbing the whitened encrypted header. -/
def wfHmac (P : FramePrims) (st : FrameState) (msg : Msg) : Bytes × Bytes :=
  updateMAC P.keccak P.blockEnc st.egress (wfHeadEnc P st msg)

/-- Plaintext frame body `ptype ++ payload ++ padding`. -/
def wfBody (msg : Msg) : Bytes :=
  rlpEncUint msg.code ++ msg.payload ++ List.replicate (padLen (wfFsize msg)) 0

/-- Encrypted frame body. -/
def wfBodyEnc (P : FramePrims) (st : FrameState) (msg : Msg) : Bytes :=
  ctrEnc P.ks (st.encPos + 16) (wfBody msg)

/-- Egress MAC state after additionally absorbing the encrypted body. -/
def wfEg2 (P : FramePrims) (st : FrameState) (msg : Msg) : Bytes :=
  (wfHmac P st msg).1 ++ wfBodyEnc P st msg

/-- Final egress MAC state and frame MAC after the self-seeded update. -/
def wfFmac (P : FramePrims) (st : FrameState) (msg : Msg) : Bytes × Bytes :=
  updateMAC P.keccak P.blockEnc (wfEg2 P st msg) (P.keccak (wfEg2 P st msg))

/-- Codec state after a successful `writeFrame`. -/
def wfState (P : FramePrims) (st : FrameState) (msg : Msg) : FrameState :=
  { st with encPos := st.encPos + 16 + (wfBody msg).length, egress := (wfFmac P st msg).1 }

/-- The bytes a successful `writeFrame` puts on the wire. -/
def wfWire (P : FramePrims) (st : FrameState) (msg : Msg) : Bytes :=
  wfHeadEnc P st msg ++ fit16 (wfHmac P st msg).2 ++ wfBodyEnc P st msg ++ (wfFmac P st msg).2

@[simp] theorem wfHeadPlain_length (msg : Msg) : (wfHeadPlain msg).length = 16 := by
  simp [wfHeadPlain, putInt24, zeroHeader]

@[simp] theorem wfHeadEnc_length (P : FramePrims) (st : FrameState) (msg : Msg) :
    (wfHeadEnc P st msg).length = 16 := by
  simp [wfHeadEnc]

theorem wfBody_length (msg : Msg) :
    (wfBody msg).length = wfFsize msg + padLen (wfFsize msg) := by
  simp [wfBody, wfFsize, Nat.add_assoc]

theorem fit16_eq_self {b : Bytes} (h : b.length = 16) : fit16 b = b := by
  simp [fit16, List.take_left' h]

theorem updateMAC_tag_length {H blockEnc : Bytes → Bytes}
    (hH : ∀ b, (H b).length = 32) (mac seed : Bytes) :
    (updateMAC H blockEnc mac seed).2.length = 16 := by
  simp [updateMAC, hH]

theorem writeFrame_ok (P : FramePrims) (st : FrameState) (msg : Msg)
    (hsn : st.snappy = false) (hsize : wfFsize msg ≤ maxUint24) :
    writeFrame P st msg = .ok (wfState P st msg, wfWire P st msg) := by
  have h1 : ¬ (st.snappy = true ∧ msg.payload.length > maxUint24) := by
    simp [hsn]
  have h2 : ¬ ((rlpEncUint msg.code).length + msg.payload.length > maxUint24) := by
    have := hsize
    simp only [wfFsize] at this
    omega
  simp only [writeFrame, hsn, Bool.false_eq_true, false_and, if_false, if_neg h2]
  simp [wfState, wfWire, wfHeadEnc, wfHmac, wfBodyEnc, wfEg2, wfFmac, wfHeadPlain,
    wfBody, wfFsize, hsn]

theorem writeFrame_tooLarge (P : FramePrims) (st : FrameState) (code : Nat) (payload : Bytes)
    (hpre : ¬ (st.snappy = true ∧ payload.length > maxUint24))
    (hsize : (rlpEncUint code).length +
      (if st.snappy then P.compress payload else payload).length > maxUint24) :
    writeFrame P st { code := code, payload := payload } = .error .tooLarge := by
  simp only [writeFrame, if_neg hpre, if_pos hsize]

/-- Reading back the bytes produced by a successful `writeFrame` with a
codec state matched to the writer (same keystream position, ingress MAC
state equal to the writer's egress state) reproduces the message exactly
and consumes exactly the frame. -/
theorem readFrame_of_wfWire (P : FramePrims) (stW stR : FrameState) (msg : Msg)
    (hH : ∀ b, (P.keccak b).length = 32)
    (hsnR : stR.snappy = false)
    (hpos : stR.decPos = stW.encPos) (hing : stR.ingress = stW.egress)
    (hcode : msg.code < 2 ^ 64)
    (hsize : wfFsize msg ≤ maxUint24)
    (extra : Bytes) :
    readFrame P stR (wfWire P stW msg ++ extra) =
      .ok ({ stR with
              decPos := stR.decPos + 16 + (wfBody msg).length,
              ingress := (wfFmac P stW msg).1 }, msg, extra) := by
  obtain ⟨code, payload⟩ := msg
  have hT1 : (wfHmac P stW ⟨code, payload⟩).2.length = 16 := by
    rw [wfHmac]; exact updateMAC_tag_length hH _ _
  have hT2 : (wfFmac P stW ⟨code, payload⟩).2.length = 16 := by
    rw [wfFmac]; exact updateMAC_tag_length hH _ _
  have hBlen : (wfBodyEnc P stW ⟨code, payload⟩).length = (wfBody ⟨code, payload⟩).length := by
    simp [wfBodyEnc]
  have hwire : wfWire P stW ⟨code, payload⟩ ++ extra =
      wfHeadEnc P stW ⟨code, payload⟩ ++ ((wfHmac P stW ⟨code, payload⟩).2 ++
        (wfBodyEnc P stW ⟨code, payload⟩ ++ ((wfFmac P stW ⟨code, payload⟩).2 ++ extra))) := by
    simp [wfWire, fit16_eq_self hT1, List.append_assoc]
  have hlen : ¬ ((wfWire P stW ⟨code, payload⟩ ++ extra).length < 32) := by
    rw [hwire]
    simp only [List.length_append, wfHeadEnc_length, hT1, hT2]
    omega
  have htake16 : (wfWire P stW ⟨code, payload⟩ ++ extra).take 16 = wfHeadEnc P stW ⟨code, payload⟩ := by
    rw [hwire]; exact List.take_left' (wfHeadEnc_length P stW ⟨code, payload⟩)
  have hdrop16 : ((wfWire P stW ⟨code, payload⟩ ++ extra).drop 16).take 16 =
      (wfHmac P stW ⟨code, payload⟩).2 := by
    rw [hwire, List.drop_left' (wfHeadEnc_length P stW ⟨code, payload⟩)]
    exact List.take_left' hT1
  have hdrop32 : (wfWire P stW ⟨code, payload⟩ ++ extra).drop 32 =
      wfBodyEnc P stW ⟨code, payload⟩ ++ ((wfFmac P stW ⟨code, payload⟩).2 ++ extra) := by
    rw [hwire, ← List.append_assoc]
    exact List.drop_left' (by simp [hT1])
  have hmacR : updateMAC P.keccak P.blockEnc stR.ingress (wfHeadEnc P stW ⟨code, payload⟩) =
      wfHmac P stW ⟨code, payload⟩ := by
    rw [hing, wfHmac]
  have hHD : ctrEnc P.ks stR.decPos (wfHeadEnc P stW ⟨code, payload⟩) = wfHeadPlain ⟨code, payload⟩ := by
    rw [hpos, wfHeadEnc]; exact ctrEnc_involutive _ _ _
  have hfs : readInt24 (wfHeadPlain ⟨code, payload⟩) = wfFsize ⟨code, payload⟩ := by
    rw [wfHeadPlain, List.append_assoc]
    exact readInt24_putInt24 _ (by have := hsize; unfold maxUint24 at this; omega) _
  have hrs : wfFsize ⟨code, payload⟩ + padLen (wfFsize ⟨code, payload⟩) =
      (wfBody ⟨code, payload⟩).length := (wfBody_length ⟨code, payload⟩).symm
  have hrestlen : ¬ ((wfBodyEnc P stW ⟨code, payload⟩ ++
      ((wfFmac P stW ⟨code, payload⟩).2 ++ extra)).length < (wfBody ⟨code, payload⟩).length) := by
    simp only [List.length_append, hBlen]
    omega
  have htakeB : (wfBodyEnc P stW ⟨code, payload⟩ ++
      ((wfFmac P stW ⟨code, payload⟩).2 ++ extra)).take (wfBody ⟨code, payload⟩).length =
      wfBodyEnc P stW ⟨code, payload⟩ := List.take_left' hBlen
  have hdropB : (wfBodyEnc P stW ⟨code, payload⟩ ++
      ((wfFmac P stW ⟨code, payload⟩).2 ++ extra)).drop (wfBody ⟨code, payload⟩).length =
      (wfFmac P stW ⟨code, payload⟩).2 ++ extra := List.drop_left' hBlen
  have hrest2len : ¬ (((wfFmac P stW ⟨code, payload⟩).2 ++ extra).length < 16) := by
    simp only [List.length_append, hT2]
    omega
  have htakeF : ((wfFmac P stW ⟨code, payload⟩).2 ++ extra).take 16 =
      (wfFmac P stW ⟨code, payload⟩).2 := List.take_left' hT2
  have hdropF : ((wfFmac P stW ⟨code, payload⟩).2 ++ extra).drop 16 = extra :=
    List.drop_left' hT2
  have hfmacR : updateMAC P.keccak P.blockEnc
      ((wfHmac P stW ⟨code, payload⟩).1 ++ wfBodyEnc P stW ⟨code, payload⟩)
      (P.keccak ((wfHmac P stW ⟨code, payload⟩).1 ++ wfBodyEnc P stW ⟨code, payload⟩)) =
      wfFmac P stW ⟨code, payload⟩ := by
    rw [wfFmac, wfEg2]
  have hBD : ctrEnc P.ks (stR.decPos + 16) (wfBodyEnc P stW ⟨code, payload⟩) =
      wfBody ⟨code, payload⟩ := by
    rw [hpos, wfBodyEnc]; exact ctrEnc_involutive _ _ _
  have htakeC : (wfBody ⟨code, payload⟩).take (wfFsize ⟨code, payload⟩) =
      rlpEncUint code ++ payload := by
    rw [wfBody]
    exact List.take_left' (by simp [wfFsize])
  have hdec : rlpDecUint (rlpEncUint code ++ payload) = some (code, payload) :=
    rlpDecUint_rlpEncUint code hcode payload
  rw [readFrame, if_neg hlen]
  simp only [htake16, hdrop16, hdrop32, hmacR, hHD, hfs, hrs, ne_eq, not_true_eq_false,
    if_neg hrestlen, htakeB, hdropB, if_neg hrest2len, htakeF, hdropF, hfmacR, hBD,
    htakeC, hdec, hsnR, Bool.false_eq_true, if_false, ite_false, ite_self]

/-- Trivial concrete primitives for concrete runs: zero keystream, a hash
returning 32 zero bytes, identity whitening. -/
def trivPrims : FramePrims where
  ks := fun _ => 0
  keccak := fun _ => List.replicate 32 0
  blockEnc := fun b => b
  compress := fun b => b
  decodedLen := fun _ => none
  decompress := fun _ => none

/-- Concrete primitives with a non-zero keystream, distinguishing the
plaintext header from the encrypted header. -/
def onesPrims : FramePrims where
  ks := fun _ => 1
  keccak := fun b => (b ++ List.replicate 32 0).take 32
  blockEnc := fun b => b
  compress := fun b => b
  decodedLen := fun _ => none
  decompress := fun _ => none

/-- Fresh codec state as built by `newRLPXFrameRW` over empty MAC seeds. -/
def st0 : FrameState := { encPos := 0, decPos := 0, egress := [], ingress := [], snappy := false }

/-- C8: `writeFrame` enforces `size(typeTag) + size(payload) < 2^24`: when
the combined RLP-encoded type tag and payload size reaches or exceeds
`2^24`, it fails with FrameTooLarge (`message size overflows uint24`).
The guard sits before the stream cipher, the egress MAC and the connection
are touched, both in the code and in this embedding, so the error return
carries no bytes and leaves the codec state unchanged. -/
theorem C8_writeFrame_size_guard (P : FramePrims) (st : FrameState) (code : Nat)
    (payload : Bytes) (hsn : st.snappy = false)
    (hsize : (rlpEncUint code).length + payload.length ≥ 2 ^ 24) :
    writeFrame P st { code := code, payload := payload } = .error .tooLarge := by
  apply writeFrame_tooLarge
  · simp [hsn]
  · simp only [hsn, Bool.false_eq_true, if_false]
    unfold maxUint24
    omega

/-- A concrete all-zero payload of exactly `2^24` bytes. -/
def big24 : Bytes := List.replicate (2 ^ 24) 0

/-- A concrete all-zero payload of exactly `2^24 - 1` bytes. -/
def big24m1 : Bytes := List.replicate (2 ^ 24 - 1) 0

theorem big24_length : big24.length = 2 ^ 24 := by
  rw [big24, List.length_replicate]

theorem big24m1_length : big24m1.length = 2 ^ 24 - 1 := by
  rw [big24m1, List.length_replicate]

/-- Witness for C8: a 2^24-byte payload with a one-byte type tag is
rejected as FrameTooLarge. -/
theorem C8_witness :
    writeFrame trivPrims st0 { code := 0, payload := big24 } = .error .tooLarge :=
  C8_writeFrame_size_guard trivPrims st0 0 big24 rfl
    (by
      have h : rlpEncUint 0 = [0x80] := rfl
      rw [h, big24_length]
      simp only [List.length_singleton]
      exact Nat.le_add_left _ _)

/-- Counterexample to C3 as stated: a payload of size exactly `2^24 - 1`
does not round-trip; `writeFrame` already rejects it as FrameTooLarge,
because `fsize = len(ptype) + msg.Size` and the RLP-encoded type tag takes
at least one byte, so `fsize = 2^24 > maxUint24`. -/
theorem C3_counterexample :
    writeFrame trivPrims st0 { code := 0, payload := big24m1 } = .error .tooLarge :=
  writeFrame_tooLarge trivPrims st0 0 big24m1
    (by simp [st0])
    (by
      have hst : st0.snappy = false := rfl
      rw [hst]
      simp only [Bool.false_eq_true, if_false]
      have h : rlpEncUint 0 = [0x80] := rfl
      rw [h, big24m1_length]
      simp only [List.length_singleton]
      unfold maxUint24
      omega)

/-- C3 (amended): over one half of a matched Secrets pair (same keystream,
reader ingress MAC state equal to writer egress MAC state), `writeFrame`
followed by `readFrame` reproduces the message bit-exactly whenever
`size(typeTag) + size(payload) ≤ 2^24 - 1` — in particular for payload
sizes 0, 1, 15, 16, 17 with their one-byte type tag — and the resulting
states are matched again.  Payload sizes `2^24 - 1` and `2^24` both fail
with FrameTooLarge before any byte is transmitted (`C3_counterexample`,
`C8_writeFrame_size_guard`). -/
theorem C3_frame_roundtrip (P : FramePrims) (stW stR : FrameState) (msg : Msg)
    (hH : ∀ b, (P.keccak b).length = 32)
    (hsnW : stW.snappy = false) (hsnR : stR.snappy = false)
    (hpos : stR.decPos = stW.encPos) (hing : stR.ingress = stW.egress)
    (hcode : msg.code < 2 ^ 64)
    (hsize : (rlpEncUint msg.code).length + msg.payload.length ≤ maxUint24)
    (extra : Bytes) :
    writeFrame P stW msg = .ok (wfState P stW msg, wfWire P stW msg) ∧
    readFrame P stR (wfWire P stW msg ++ extra) =
      .ok ({ stR with
              decPos := stR.decPos + 16 + (wfBody msg).length,
              ingress := (wfFmac P stW msg).1 }, msg, extra) ∧
    stR.decPos + 16 + (wfBody msg).length = (wfState P stW msg).encPos ∧
    (wfFmac P stW msg).1 = (wfState P stW msg).egress :=
  ⟨writeFrame_ok P stW msg hsnW hsize,
   readFrame_of_wfWire P stW stR msg hH hsnR hpos hing hcode hsize extra,
   by simp [wfState, hpos],
   by simp [wfState]⟩

/-- Witness for C3: concrete three-byte payload round-trips through a
matched pair of fresh codec states. -/
theorem C3_witness :
    writeFrame trivPrims st0 { code := 0, payload := [1, 2, 3] } =
      .ok (wfState trivPrims st0 { code := 0, payload := [1, 2, 3] },
           wfWire trivPrims st0 { code := 0, payload := [1, 2, 3] }) ∧
    readFrame trivPrims st0 (wfWire trivPrims st0 { code := 0, payload := [1, 2, 3] } ++ [7]) =
      .ok ({ st0 with
              decPos := st0.decPos + 16 + (wfBody { code := 0, payload := [1, 2, 3] }).length,
              ingress := (wfFmac trivPrims st0 { code := 0, payload := [1, 2, 3] }).1 },
           { code := 0, payload := [1, 2, 3] }, [7]) := by
  have h := C3_frame_roundtrip trivPrims st0 st0 { code := 0, payload := [1, 2, 3] }
    (fun b => by simp [trivPrims]) rfl rfl rfl rfl (by norm_num) (by decide) [7]
  exact ⟨h.1, h.2.1⟩

/-- Modelled from the spec (wording of claim C2): the header MAC obtained
by encrypting the current egress MAC digest with the whitening cipher,
XOR-ing the result with the PRE-ENCRYPTION plaintext header bytes,
absorbing that XOR, and emitting the first 16 digest bytes.  This follows
the claim's words; `writeFrame` itself seeds `updateMAC` with the
already-encrypted header. -/
def specHeaderMACPlain (P : FramePrims) (st : FrameState) (msg : Msg) : Bytes :=
  (updateMAC P.keccak P.blockEnc st.egress (wfHeadPlain msg)).2

/-- Counterexample to C2 as stated: with a keystream of ones (so that the
encrypted header differs from the plaintext header), the header MAC that
`writeFrame` actually emits differs from the MAC computed over the
pre-encryption plaintext header as the claim describes: the code XORs the
whitened digest with the header bytes written on the wire, i.e. the
post-encryption ones (`rlpx.go` line 688 encrypts, line 691 MACs). -/
theorem C2_counterexample :
    writeFrame onesPrims st0 { code := 0, payload := [] } =
      .ok (wfState onesPrims st0 { code := 0, payload := [] },
           wfWire onesPrims st0 { code := 0, payload := [] }) ∧
    ((wfWire onesPrims st0 { code := 0, payload := [] }).drop 16).take 16 ≠
      specHeaderMACPlain onesPrims st0 { code := 0, payload := [] } := by
  constructor
  · exact writeFrame_ok onesPrims st0 _ rfl (by decide)
  · decide

/-- C2 (amended): in `writeFrame`, the 16-byte header MAC tag is computed
by encrypting the current egress MAC digest with the whitening block
cipher, XOR-ing the result with the ENCRYPTED header bytes as transmitted
(the first 16 bytes of the wire), absorbing that XOR into the MAC
accumulator, and emitting the first 16 bytes of the updated digest —
exactly `updateMAC` seeded with the encrypted header. -/
theorem C2_header_mac (P : FramePrims) (st : FrameState) (msg : Msg)
    (hH : ∀ b, (P.keccak b).length = 32)
    (hsn : st.snappy = false) (hsize : wfFsize msg ≤ maxUint24) :
    writeFrame P st msg = .ok (wfState P st msg, wfWire P st msg) ∧
    (wfWire P st msg).take 16 = ctrEnc P.ks st.encPos (wfHeadPlain msg) ∧
    ((wfWire P st msg).drop 16).take 16 =
      (updateMAC P.keccak P.blockEnc st.egress
        (ctrEnc P.ks st.encPos (wfHeadPlain msg))).2 := by
  have hT1 : (wfHmac P st msg).2.length = 16 := by
    rw [wfHmac]; exact updateMAC_tag_length hH _ _
  refine ⟨writeFrame_ok P st msg hsn hsize, ?_, ?_⟩
  · rw [wfWire, fit16_eq_self hT1]
    simp only [List.append_assoc]
    rw [List.take_left' (wfHeadEnc_length P st msg), wfHeadEnc]
  · rw [wfWire, fit16_eq_self hT1]
    simp only [List.append_assoc]
    rw [List.drop_left' (wfHeadEnc_length P st msg), List.take_left' hT1, wfHmac, wfHeadEnc]

/-- Witness for C2 (amended): concrete evaluation over the ones keystream. -/
theorem C2_witness :
    writeFrame onesPrims st0 { code := 5, payload := [9] } =
      .ok (wfState onesPrims st0 { code := 5, payload := [9] },
           wfWire onesPrims st0 { code := 5, payload := [9] }) ∧
    (wfWire onesPrims st0 { code := 5, payload := [9] }).take 16 =
      ctrEnc onesPrims.ks st0.encPos (wfHeadPlain { code := 5, payload := [9] }) ∧
    ((wfWire onesPrims st0 { code := 5, payload := [9] }).drop 16).take 16 =
      (updateMAC onesPrims.keccak onesPrims.blockEnc st0.egress
        (ctrEnc onesPrims.ks st0.encPos (wfHeadPlain { code := 5, payload := [9] }))).2 :=
  C2_header_mac onesPrims st0 { code := 5, payload := [9] }
    (fun b => by simp [onesPrims]) rfl (by decide)

/-! ## Encryption handshake (`encHandshake`, auth messages, flows) -/

/-- `authMsgV4` from rlpx.go (fixed-size byte arrays modelled as byte
lists; `CertSize` travels outside the RLP body, as the 2-byte big-endian
prefix of the sealed plaintext). -/
structure AuthMsgV4 where
  signature : Bytes
  initiatorPubkey : Bytes
  nonce : Bytes
  version : Nat
  certSize : Nat
deriving DecidableEq, Repr

/-- `authRespV4` from rlpx.go. -/
structure AuthRespV4 where
  randomPubkey : Bytes
  nonce : Bytes
  version : Nat
  certSize : Nat
deriving DecidableEq, Repr

/-- The pluggable crypto suite and codec collaborators used by the
handshake (package `crypto` delegates to build-time-selected curve
backends; package `rlp` is repository code not under src/ and is
abstracted the same way).  `pubOf` is `prv.PublicKey`; `generateShared`
is ECDH with requested key lengths, `none` modelling an error return;
`sign`/`sigToPub` are ECDSA sign and public-key recovery; `marshalPub` /
`unmarshalPub` are `elliptic.Marshal` / `crypto.UnmarshalPubkey`;
`encrypt`/`decrypt` are the ECIES envelope; `rlpEncAuth` … `rlpDecResp`
are `rlp.EncodeToBytes` / `rlp.Decode` for the two message structs;
`verifyCert`/`certToPub` are `certList.VerifyCert` and
`crypto.FromCertBytesToPubKey`. -/
structure Crypto (Priv Pub : Type) where
  pubOf : Priv → Pub
  generateShared : Priv → Pub → Nat → Nat → Option Bytes
  keccak : Bytes → Bytes
  sign : Bytes → Priv → Option Bytes
  sigToPub : Bytes → Bytes → Option Pub
  marshalPub : Pub → Bytes
  unmarshalPub : Bytes → Option Pub
  encrypt : Pub → Bytes → Bytes
  decrypt : Priv → Bytes → Option Bytes
  rlpEncAuth : AuthMsgV4 → Bytes
  rlpDecAuth : Bytes → Option AuthMsgV4
  rlpEncResp : AuthRespV4 → Bytes
  rlpDecResp : Bytes → Option AuthRespV4
  verifyCert : Bytes → Bool
  certToPub : Bytes → Option Pub

/-- `encHandshake` state from rlpx.go.  `respNonce = []` stands for the Go
nil slice before the response nonce is known. -/
structure EncHandshake (Priv Pub : Type) where
  certSize : Nat
  initiator : Bool
  remote : Pub
  initNonce : Bytes
  respNonce : Bytes
  randomPrivKey : Priv
  remoteRandomPub : Pub
deriving DecidableEq

/-- Connection secrets from rlpx.go.  The two MAC hash states are the byte
lists absorbed so far (`EgressMAC`/`IngressMAC` after seeding). -/
structure Secrets (Pub : Type) where
  remote : Pub
  aes : Bytes
  mac : Bytes
  egressMAC : Bytes
  ingressMAC : Bytes
deriving DecidableEq

/-- Handshake errors.  `panicDecode` models the Go `panic` in
`decodePlain` (a crash, not an error return); `readError` a failed
`io.ReadFull`; the `cert…` errors are the certificate-exchange failures of
`initiatorEncHandshake`/`receiverEncHandshake`. -/
inductive HsErr where
  | ecdhFail
  | signFail
  | decryptError
  | panicDecode
  | versionMismatch
  | importError
  | sigRecoverFail
  | certSizeZero
  | certSizeMismatch
  | certVerifyFail
  | certPubFail
  | certMismatch
  | readError
deriving DecidableEq, Repr

instance {ε α : Type} [DecidableEq ε] [DecidableEq α] : DecidableEq (Except ε α) := fun x y =>
  match x, y with
  | .error a, .error b =>
    if h : a = b then isTrue (by rw [h]) else isFalse (fun he => h (Except.error.inj he))
  | .error _, .ok _ => isFalse (fun he => Except.noConfusion he)
  | .ok _, .error _ => isFalse (fun he => Except.noConfusion he)
  | .ok a, .ok b =>
    if h : a = b then isTrue (by rw [h]) else isFalse (fun he => h (Except.ok.inj he))

/-- 2-byte big-endian encoding (`binary.BigEndian.PutUint16`). -/
def be16 (v : Nat) : Bytes := [v / 256 % 256, v % 256]

/-- 2-byte big-endian decoding (`binary.BigEndian.Uint16`). -/
def be16val (b : Bytes) : Nat := b.getD 0 0 * 256 + b.getD 1 0

theorem be16val_be16 (v : Nat) (h : v < 2 ^ 16) : be16val (be16 v) = v := by
  simp only [be16, be16val, List.getD_cons_zero, List.getD_cons_succ]
  have h1 : v / 256 % 256 = v / 256 := Nat.mod_eq_of_lt (by omega)
  rw [h1]
  omega

/-- `importPublicKey` from rlpx.go: accept a 64-byte key by prepending the
uncompressed-key flag 0x04, accept a 65-byte key as is, reject other
lengths. -/
def importPublicKey {Priv Pub : Type} (C : Crypto Priv Pub) (pubKey : Bytes) : Option Pub :=
  if pubKey.length = 64 then C.unmarshalPub (0x04 :: pubKey)
  else if pubKey.length = 65 then C.unmarshalPub pubKey
  else none

/-- `exportPubkey` from rlpx.go: `elliptic.Marshal(...)[1:]`. -/
def exportPubkey {Priv Pub : Type} (C : Crypto Priv Pub) (pub : Pub) : Bytes :=
  (C.marshalPub pub).drop 1

/-- `encHandshake.secrets` from rlpx.go: ECDH over the ephemeral keys,
then the Keccak chain `sharedSecret = H(ecdhe ++ H(respNonce ++
initNonce))`, `aes = H(ecdhe ++ sharedSecret)`, `mac = H(ecdhe ++ aes)`;
the two MAC hash states absorb `xor(mac, respNonce) ++ auth` and
`xor(mac, initNonce) ++ authResp`, with egress/ingress assignment swapped
by the initiator flag. -/
def encHandshakeSecrets {Priv Pub : Type} (C : Crypto Priv Pub)
    (h : EncHandshake Priv Pub) (auth authResp : Bytes) :
    Except HsErr (Secrets Pub) :=
  match C.generateShared h.randomPrivKey h.remoteRandomPub sskLen sskLen with
  | none => .error .ecdhFail
  | some ecdheSecret =>
    let sharedSecret := C.keccak (ecdheSecret ++ C.keccak (h.respNonce ++ h.initNonce))
    let aesSecret := C.keccak (ecdheSecret ++ sharedSecret)
    let macSecret := C.keccak (ecdheSecret ++ aesSecret)
    let mac1 := xorBytes macSecret h.respNonce ++ auth
    let mac2 := xorBytes macSecret h.initNonce ++ authResp
    .ok { remote := h.remote, aes := aesSecret, mac := macSecret,
          egressMAC := if h.initiator then mac1 else mac2,
          ingressMAC := if h.initiator then mac2 else mac1 }

/-- `encHandshake.makeAuthMsg` from rlpx.go, with the random nonce and
ephemeral key passed in: sign `xor(staticSharedSecret, initNonce)` with
the ephemeral key and assemble the auth message. -/
def makeAuthMsg {Priv Pub : Type} (C : Crypto Priv Pub) (prv : Priv) (remote : Pub)
    (certSize : Nat) (initNonce : Bytes) (eph : Priv) :
    Except HsErr AuthMsgV4 :=
  match C.generateShared prv remote sskLen sskLen with
  | none => .error .ecdhFail
  | some token =>
    match C.sign (xorBytes token initNonce) eph with
    | none => .error .signFail
    | some signature =>
      .ok { signature := signature,
            initiatorPubkey := (C.marshalPub (C.pubOf prv)).drop 1,
            nonce := initNonce,
            version := TaiRLPXVersion,
            certSize := certSize }

/-- `encHandshake.handleAuthResp` from rlpx.go, returning the fields it
sets (`respNonce`, `remoteRandomPub`) instead of mutating: the version
check dominates (its error is returned even when the import failed). -/
def handleAuthResp {Priv Pub : Type} (C : Crypto Priv Pub) (msg : AuthRespV4) :
    Except HsErr (Bytes × Pub) :=
  if msg.version ≠ TaiRLPXVersion then .error .versionMismatch
  else match importPublicKey C msg.randomPubkey with
    | none => .error .importError
    | some p => .ok (msg.nonce, p)

/-- `encHandshake.handleAuthMsg` from rlpx.go, with the receiver ephemeral
key passed in: import the initiator identity, recompute the static shared
secret, recover the remote ephemeral public key from the signature. -/
def handleAuthMsg {Priv Pub : Type} (C : Crypto Priv Pub) (certSize : Nat)
    (msg : AuthMsgV4) (prv eph : Priv) :
    Except HsErr (EncHandshake Priv Pub) :=
  match importPublicKey C msg.initiatorPubkey with
  | none => .error .importError
  | some rpub =>
    match C.generateShared prv rpub sskLen sskLen with
    | none => .error .ecdhFail
    | some token =>
      match C.sigToPub (xorBytes token msg.nonce) msg.signature with
      | none => .error .sigRecoverFail
      | some rrpub =>
        .ok { certSize := certSize, initiator := false, remote := rpub,
              initNonce := msg.nonce, respNonce := [],
              randomPrivKey := eph, remoteRandomPub := rrpub }

/-- `encHandshake.makeAuthResp` from rlpx.go, with the random nonce passed
in. -/
def makeAuthResp {Priv Pub : Type} (C : Crypto Priv Pub)
    (h : EncHandshake Priv Pub) (respNonce : Bytes) :
    AuthRespV4 × EncHandshake Priv Pub :=
  ({ randomPubkey := exportPubkey C (C.pubOf h.randomPrivKey),
     nonce := respNonce,
     version := TaiRLPXVersion,
     certSize := h.certSize },
   { h with respNonce := respNonce })

/-- `authMsgV4.sealPlain` from rlpx.go: RLP-encode, prepend the 2-byte
big-endian cert size, ECIES-encrypt to the remote static key. -/
def sealAuthMsg {Priv Pub : Type} (C : Crypto Priv Pub) (remote : Pub) (msg : AuthMsgV4) : Bytes :=
  C.encrypt remote (be16 msg.certSize ++ C.rlpEncAuth msg)

/-- `authRespV4.sealPlain` from rlpx.go. -/
def sealAuthResp {Priv Pub : Type} (C : Crypto Priv Pub) (remote : Pub) (msg : AuthRespV4) : Bytes :=
  C.encrypt remote (be16 msg.certSize ++ C.rlpEncResp msg)

/-- Outcome of `readHandshakeMsg`: a decoded message, a decryption error
return (`Decrypt error`), or a `panic` (crash) raised by `decodePlain`
on RLP decode failure (or by slicing `dec[:2]` of a short plaintext). -/
inductive ReadResult (α : Type) where
  | ok (msg : α)
  | decryptError
  | panicked
deriving DecidableEq, Repr

/-- `readHandshakeMsg` from rlpx.go specialised to `authMsgV4`: decrypt
with the local static key, take the 2-byte cert-size prefix, RLP-decode
the rest via `decodePlain` (which panics on failure), and set the cert
size on the message. -/
def readAuthMsg {Priv Pub : Type} (C : Crypto Priv Pub) (prv : Priv) (input : Bytes) :
    ReadResult AuthMsgV4 :=
  match C.decrypt prv input with
  | none => .decryptError
  | some dec =>
    if dec.length < 2 then .panicked
    else match C.rlpDecAuth (dec.drop 2) with
      | none => .panicked
      | some m => .ok { m with certSize := be16val (dec.take 2) }

/-- `readHandshakeMsg` from rlpx.go specialised to `authRespV4`. -/
def readAuthResp {Priv Pub : Type} (C : Crypto Priv Pub) (prv : Priv) (input : Bytes) :
    ReadResult AuthRespV4 :=
  match C.decrypt prv input with
  | none => .decryptError
  | some dec =>
    if dec.length < 2 then .panicked
    else match C.rlpDecResp (dec.drop 2) with
      | none => .panicked
      | some m => .ok { m with certSize := be16val (dec.take 2) }

/-- `rlpx.initiatorEncHandshake` from rlpx.go, with the random choices
(`initNonce`, ephemeral key) and the connection reads (the auth-response
packet, the certificate-read stream) passed in, and the bytes written to
the connection returned alongside the secrets.  `localCert` models
`t.cm`: `none` is a nil certManager, `some c` a manager holding
certificate `c` (the certificate branch runs only when `c` is
non-empty, as in the code). -/
def initiatorEncHandshake {Priv Pub : Type} [DecidableEq Pub] (C : Crypto Priv Pub)
    (prv : Priv) (remote : Pub) (localCert : Option Bytes)
    (initNonce : Bytes) (eph : Priv)
    (respPacket : Bytes) (certIn : Bytes) :
    Except HsErr (Secrets Pub × List Bytes) :=
  let size := match localCert with | some c => c.length | none => 0
  match makeAuthMsg C prv remote size initNonce eph with
  | .error e => .error e
  | .ok authMsg =>
    let authPacket := sealAuthMsg C remote authMsg
    match readAuthResp C prv respPacket with
    | .decryptError => .error .decryptError
    | .panicked => .error .panicDecode
    | .ok authRespMsg =>
      match handleAuthResp C authRespMsg with
      | .error e => .error e
      | .ok (respNonce, rrpub) =>
        let h : EncHandshake Priv Pub :=
          { certSize := size, initiator := true, remote := remote,
            initNonce := initNonce, respNonce := respNonce,
            randomPrivKey := eph, remoteRandomPub := rrpub }
        match localCert with
        | none =>
          (encHandshakeSecrets C h authPacket respPacket).map fun s => (s, [authPacket])
        | some c =>
          if c.length = 0 then
            (encHandshakeSecrets C h authPacket respPacket).map fun s => (s, [authPacket])
          else if authRespMsg.certSize = 0 then .error .certSizeZero
          else if c.length ≠ authRespMsg.certSize then .error .certSizeMismatch
          else if certIn.length < authRespMsg.certSize then .error .readError
          else
            let buf := certIn.take authRespMsg.certSize
            if ¬ C.verifyCert buf then .error .certVerifyFail
            else match C.certToPub buf with
              | none => .error .certPubFail
              | some pub =>
                if pub ≠ h.remote then .error .certMismatch
                else
                  (encHandshakeSecrets C h authPacket respPacket).map fun s =>
                    (s, [authPacket, c])

/-- `rlpx.receiverEncHandshake` from rlpx.go, with the random choices
(`respNonce`, ephemeral key) and the connection reads (the auth packet,
the certificate-read stream) passed in, and the bytes written to the
connection returned alongside the secrets.  Note the order of the code:
the auth response is sealed and written before the version of the auth
message is checked, and the secrets are derived only after the optional
certificate exchange. -/
def receiverEncHandshake {Priv Pub : Type} [DecidableEq Pub] (C : Crypto Priv Pub)
    (prv : Priv) (localCert : Option Bytes)
    (respNonce : Bytes) (eph : Priv)
    (authPacketIn : Bytes) (certIn : Bytes) :
    Except HsErr (Secrets Pub × List Bytes) :=
  match readAuthMsg C prv authPacketIn with
  | .decryptError => .error .decryptError
  | .panicked => .error .panicDecode
  | .ok authMsg =>
    let size := match localCert with | some c => c.length | none => 0
    match handleAuthMsg C size authMsg prv eph with
    | .error e => .error e
    | .ok h =>
      let pre : Except HsErr Bool :=
        match localCert with
        | none => .ok false
        | some c =>
          if c.length = 0 then .ok false
          else if authMsg.certSize = 0 then .error .certSizeZero
          else if c.length ≠ authMsg.certSize then .error .certSizeMismatch
          else .ok true
      match pre with
      | .error e => .error e
      | .ok find =>
        let respPair := makeAuthResp C h respNonce
        let respPacket := sealAuthResp C respPair.2.remote respPair.1
        if authMsg.version ≠ TaiRLPXVersion then .error .versionMismatch
        else if find then
          (if certIn.length < authMsg.certSize then .error .readError
           else
             let buf := certIn.take authMsg.certSize
             if ¬ C.verifyCert buf then .error .certVerifyFail
             else match C.certToPub buf with
               | none => .error .certPubFail
               | some pub =>
                 if pub ≠ respPair.2.remote then .error .certMismatch
                 else
                   (encHandshakeSecrets C respPair.2 authPacketIn respPacket).map fun s =>
                     (s, [respPacket, localCert.getD []]))
        else
          (encHandshakeSecrets C respPair.2 authPacketIn respPacket).map fun s =>
            (s, [respPacket])

/-- Length-prefixed field reader for the toy RLP codecs below. -/
def readLP (b : Bytes) : Option (Bytes × Bytes) :=
  match b with
  | [] => none
  | n :: rest => if n ≤ rest.length then some (rest.take n, rest.drop n) else none

/-- Toy auth-message decoder inverting the toy encoder below. -/
def natDecAuth (b : Bytes) : Option AuthMsgV4 :=
  match b with
  | [] => none
  | v :: rest =>
    match readLP rest with
    | none => none
    | some (nonce, r2) =>
      match readLP r2 with
      | none => none
      | some (sig, r3) =>
        match readLP r3 with
        | none => none
        | some (ipk, _) =>
          some { signature := sig, initiatorPubkey := ipk, nonce := nonce,
                 version := v, certSize := 0 }

/-- Toy auth-response decoder inverting the toy encoder below. -/
def natDecResp (b : Bytes) : Option AuthRespV4 :=
  match b with
  | [] => none
  | v :: rest =>
    match readLP rest with
    | none => none
    | some (nonce, r2) =>
      match readLP r2 with
      | none => none
      | some (rpk, _) =>
        some { randomPubkey := rpk, nonce := nonce, version := v, certSize := 0 }

/-- A concrete crypto suite over `Nat` keys for concrete runs: `pubOf` is
the identity (so ECDH by multiplication is symmetric), signatures carry
the key and digest so recovery works, the ECIES envelope prepends the
recipient key, and the struct codecs are length-prefixed. -/
def natCrypto : Crypto Nat Nat where
  pubOf := id
  generateShared := fun a b skLen _ => some (List.replicate skLen (a * b % 256))
  keccak := fun b => (b ++ List.replicate 32 0).take 32
  sign := fun d k => some (9 :: k :: d)
  sigToPub := fun d s =>
    match s with
    | _ :: k :: rest => if rest = d then some k else none
    | _ => none
  marshalPub := fun p => 4 :: p :: List.replicate 63 0
  unmarshalPub := fun b =>
    if b.length = 65 ∧ b.getD 0 0 = 4 then some (b.getD 1 0) else none
  encrypt := fun p m => p :: m
  decrypt := fun k c =>
    match c with
    | p :: m => if p = k then some m else none
    | [] => none
  rlpEncAuth := fun m =>
    m.version :: (m.nonce.length :: m.nonce ++ (m.signature.length :: m.signature ++
      (m.initiatorPubkey.length :: m.initiatorPubkey)))
  rlpDecAuth := natDecAuth
  rlpEncResp := fun m =>
    m.version :: (m.nonce.length :: m.nonce ++ (m.randomPubkey.length :: m.randomPubkey))
  rlpDecResp := natDecResp
  verifyCert := fun c => c.getD 0 0 = 1
  certToPub := fun c => some (c.getD 1 0)

/-- C4: `encHandshake.secrets` computes exactly the chain `sharedSecret =
H(ecdheSecret ++ H(respNonce ++ initNonce))`, `aesKey = H(ecdheSecret ++
sharedSecret)`, `macKey = H(ecdheSecret ++ aesKey)` with `ecdheSecret =
ECDH(localEphemeral, remoteEphemeral)`, and the returned Secrets carry
`aesKey` as the AES session key and `macKey` as the MAC key (the MAC
states are seeded from `macKey`, the nonces and the raw messages). -/
theorem C4_secrets_chain {Priv Pub : Type} (C : Crypto Priv Pub)
    (h : EncHandshake Priv Pub) (auth authResp : Bytes) (ecdheSecret : Bytes)
    (hec : C.generateShared h.randomPrivKey h.remoteRandomPub sskLen sskLen = some ecdheSecret) :
    encHandshakeSecrets C h auth authResp =
      .ok { remote := h.remote,
            aes := C.keccak (ecdheSecret ++
              C.keccak (ecdheSecret ++ C.keccak (h.respNonce ++ h.initNonce))),
            mac := C.keccak (ecdheSecret ++ C.keccak (ecdheSecret ++
              C.keccak (ecdheSecret ++ C.keccak (h.respNonce ++ h.initNonce)))),
            egressMAC :=
              if h.initiator then
                xorBytes (C.keccak (ecdheSecret ++ C.keccak (ecdheSecret ++
                  C.keccak (ecdheSecret ++ C.keccak (h.respNonce ++ h.initNonce))))) h.respNonce ++ auth
              else
                xorBytes (C.keccak (ecdheSecret ++ C.keccak (ecdheSecret ++
                  C.keccak (ecdheSecret ++ C.keccak (h.respNonce ++ h.initNonce))))) h.initNonce ++ authResp,
            ingressMAC :=
              if h.initiator then
                xorBytes (C.keccak (ecdheSecret ++ C.keccak (ecdheSecret ++
                  C.keccak (ecdheSecret ++ C.keccak (h.respNonce ++ h.initNonce))))) h.initNonce ++ authResp
              else
                xorBytes (C.keccak (ecdheSecret ++ C.keccak (ecdheSecret ++
                  C.keccak (ecdheSecret ++ C.keccak (h.respNonce ++ h.initNonce))))) h.respNonce ++ auth } := by
  simp only [encHandshakeSecrets, hec]

/-- Witness for C4: concrete evaluation over the `Nat` crypto suite. -/
theorem C4_witness :
    encHandshakeSecrets natCrypto
      { certSize := 0, initiator := true, remote := 7, initNonce := [1, 2],
        respNonce := [3, 4], randomPrivKey := 5, remoteRandomPub := 11 }
      [21] [22] =
      .ok { remote := 7,
            aes := natCrypto.keccak (List.replicate 16 55 ++
              natCrypto.keccak (List.replicate 16 55 ++ natCrypto.keccak ([3, 4] ++ [1, 2]))),
            mac := natCrypto.keccak (List.replicate 16 55 ++
              natCrypto.keccak (List.replicate 16 55 ++ natCrypto.keccak (List.replicate 16 55 ++
                natCrypto.keccak ([3, 4] ++ [1, 2])))),
            egressMAC :=
              if true then
                xorBytes (natCrypto.keccak (List.replicate 16 55 ++
                  natCrypto.keccak (List.replicate 16 55 ++ natCrypto.keccak (List.replicate 16 55 ++
                    natCrypto.keccak ([3, 4] ++ [1, 2]))))) [3, 4] ++ [21]
              else
                xorBytes (natCrypto.keccak (List.replicate 16 55 ++
                  natCrypto.keccak (List.replicate 16 55 ++ natCrypto.keccak (List.replicate 16 55 ++
                    natCrypto.keccak ([3, 4] ++ [1, 2]))))) [1, 2] ++ [22],
            ingressMAC :=
              if true then
                xorBytes (natCrypto.keccak (List.replicate 16 55 ++
                  natCrypto.keccak (List.replicate 16 55 ++ natCrypto.keccak (List.replicate 16 55 ++
                    natCrypto.keccak ([3, 4] ++ [1, 2]))))) [1, 2] ++ [22]
              else
                xorBytes (natCrypto.keccak (List.replicate 16 55 ++
                  natCrypto.keccak (List.replicate 16 55 ++ natCrypto.keccak (List.replicate 16 55 ++
                    natCrypto.keccak ([3, 4] ++ [1, 2]))))) [3, 4] ++ [21] } :=
  C4_secrets_chain natCrypto
    { certSize := 0, initiator := true, remote := 7, initNonce := [1, 2],
      respNonce := [3, 4], randomPrivKey := 5, remoteRandomPub := 11 }
    [21] [22] (List.replicate 16 55) (by decide)

/-- C1: for a static key pair (A, B), A's `makeAuthMsg` followed by B's
`handleAuthMsg`/`makeAuthResp` on that message and A's `handleAuthResp` on
B's response, then `encHandshake.secrets` independently on both sides over
the same raw auth and auth-response bytes, yields Secrets with equal AES
keys, equal MAC keys, A's egress MAC state (after seeding) equal to B's
ingress MAC state, and A's ingress equal to B's egress.  The hypotheses
are the crypto-suite contracts at the points of this run: marshal/import
round-trips, symmetry of the static and ephemeral ECDH agreements, and
public-key recovery returning the signer of `Sign`. -/
theorem C1_handshake_agreement {Priv Pub : Type} (C : Crypto Priv Pub)
    (prvA prvB ephA ephB : Priv) (nA nB : Bytes) (certSizeA certSizeB : Nat)
    (authMsg : AuthMsgV4) (tok ecdhe : Bytes)
    (hmk : makeAuthMsg C prvA (C.pubOf prvB) certSizeA nA ephA = .ok authMsg)
    (himpA : importPublicKey C ((C.marshalPub (C.pubOf prvA)).drop 1) = some (C.pubOf prvA))
    (himpB : importPublicKey C ((C.marshalPub (C.pubOf ephB)).drop 1) = some (C.pubOf ephB))
    (hecdh1 : C.generateShared prvA (C.pubOf prvB) sskLen sskLen = some tok)
    (hecdh2 : C.generateShared prvB (C.pubOf prvA) sskLen sskLen = some tok)
    (hsig : ∀ sig, C.sign (xorBytes tok nA) ephA = some sig →
      C.sigToPub (xorBytes tok nA) sig = some (C.pubOf ephA))
    (hee1 : C.generateShared ephA (C.pubOf ephB) sskLen sskLen = some ecdhe)
    (hee2 : C.generateShared ephB (C.pubOf ephA) sskLen sskLen = some ecdhe)
    (auth authResp : Bytes) :
    ∃ (hB : EncHandshake Priv Pub) (rn : Bytes) (rp : Pub) (sA sB : Secrets Pub),
      handleAuthMsg C certSizeB authMsg prvB ephB = .ok hB ∧
      handleAuthResp C (makeAuthResp C hB nB).1 = .ok (rn, rp) ∧
      encHandshakeSecrets C
        { certSize := certSizeA, initiator := true, remote := C.pubOf prvB,
          initNonce := nA, respNonce := rn, randomPrivKey := ephA,
          remoteRandomPub := rp } auth authResp = .ok sA ∧
      encHandshakeSecrets C (makeAuthResp C hB nB).2 auth authResp = .ok sB ∧
      sA.aes = sB.aes ∧ sA.mac = sB.mac ∧
      sA.egressMAC = sB.ingressMAC ∧ sA.ingressMAC = sB.egressMAC := by
  cases hs : C.sign (xorBytes tok nA) ephA with
  | none =>
      simp only [makeAuthMsg, hecdh1, hs] at hmk
      exact (Except.noConfusion hmk)
  | some sig =>
      simp only [makeAuthMsg, hecdh1, hs, Except.ok.injEq] at hmk
      subst hmk
      have hrec := hsig sig hs
      refine ⟨{ certSize := certSizeB, initiator := false, remote := C.pubOf prvA,
                initNonce := nA, respNonce := [], randomPrivKey := ephB,
                remoteRandomPub := C.pubOf ephA }, nB, C.pubOf ephB,
        { remote := C.pubOf prvB,
          aes := C.keccak (ecdhe ++ C.keccak (ecdhe ++ C.keccak (nB ++ nA))),
          mac := C.keccak (ecdhe ++ C.keccak (ecdhe ++
            C.keccak (ecdhe ++ C.keccak (nB ++ nA)))),
          egressMAC := xorBytes (C.keccak (ecdhe ++ C.keccak (ecdhe ++
            C.keccak (ecdhe ++ C.keccak (nB ++ nA))))) nB ++ auth,
          ingressMAC := xorBytes (C.keccak (ecdhe ++ C.keccak (ecdhe ++
            C.keccak (ecdhe ++ C.keccak (nB ++ nA))))) nA ++ authResp },
        { remote := C.pubOf prvA,
          aes := C.keccak (ecdhe ++ C.keccak (ecdhe ++ C.keccak (nB ++ nA))),
          mac := C.keccak (ecdhe ++ C.keccak (ecdhe ++
            C.keccak (ecdhe ++ C.keccak (nB ++ nA)))),
          egressMAC := xorBytes (C.keccak (ecdhe ++ C.keccak (ecdhe ++
            C.keccak (ecdhe ++ C.keccak (nB ++ nA))))) nA ++ authResp,
          ingressMAC := xorBytes (C.keccak (ecdhe ++ C.keccak (ecdhe ++
            C.keccak (ecdhe ++ C.keccak (nB ++ nA))))) nB ++ auth },
        ?_, ?_, ?_, ?_, rfl, rfl, rfl, rfl⟩
      · simp only [handleAuthMsg, himpA, hecdh2, hrec]
      · simp only [makeAuthResp, handleAuthResp, exportPubkey]
        rw [if_neg (by simp), himpB]
      · simp only [encHandshakeSecrets, hee1, if_true]
      · simp only [makeAuthResp, encHandshakeSecrets, hee2, if_false,
          Bool.false_eq_true, ite_false]

/-- Witness for C1: a concrete handshake over the `Nat` crypto suite
(static keys 5 and 3, ephemerals 11 and 13, nonces `[1,2]` and `[6,7]`). -/
theorem C1_witness :
    ∃ (hB : EncHandshake Nat Nat) (rn : Bytes) (rp : Nat) (sA sB : Secrets Nat),
      handleAuthMsg natCrypto 0
        { signature := 9 :: 11 :: xorBytes (List.replicate 16 15) [1, 2],
          initiatorPubkey := (natCrypto.marshalPub (natCrypto.pubOf 5)).drop 1,
          nonce := [1, 2], version := TaiRLPXVersion, certSize := 0 } 3 13 = .ok hB ∧
      handleAuthResp natCrypto (makeAuthResp natCrypto hB [6, 7]).1 = .ok (rn, rp) ∧
      encHandshakeSecrets natCrypto
        { certSize := 0, initiator := true, remote := natCrypto.pubOf 3,
          initNonce := [1, 2], respNonce := rn, randomPrivKey := 11,
          remoteRandomPub := rp } [50] [60] = .ok sA ∧
      encHandshakeSecrets natCrypto (makeAuthResp natCrypto hB [6, 7]).2 [50] [60] = .ok sB ∧
      sA.aes = sB.aes ∧ sA.mac = sB.mac ∧
      sA.egressMAC = sB.ingressMAC ∧ sA.ingressMAC = sB.egressMAC :=
  C1_handshake_agreement natCrypto 5 3 11 13 [1, 2] [6, 7] 0 0
    { signature := 9 :: 11 :: xorBytes (List.replicate 16 15) [1, 2],
      initiatorPubkey := (natCrypto.marshalPub (natCrypto.pubOf 5)).drop 1,
      nonce := [1, 2], version := TaiRLPXVersion, certSize := 0 }
    (List.replicate 16 15) (List.replicate 16 143)
    (by decide) (by decide) (by decide) (by decide) (by decide)
    (by
      intro sig h
      have h2 : (some (9 :: 11 :: xorBytes (List.replicate 16 15) [1, 2]) : Option Bytes) =
          some sig := h
      cases h2
      decide)
    (by decide) (by decide) [50] [60]

/-- C6 (amended): each side checks the version of the message it consumes
against the constant `TaiRLPXVersion` (15) — the initiator the
auth-response in `handleAuthResp`, the receiver the auth message after
sending its own response — and the checking side fails with
VersionMismatch and derives no Secrets.  The sides compare against the
constant independently, not against each other, so a differing version in
one message fails only the side that received it (see
`C6_counterexample`). -/
theorem C6_version_gate {Priv Pub : Type} [DecidableEq Pub] (C : Crypto Priv Pub) :
    (∀ (prv : Priv) (remote : Pub) (nA : Bytes) (eph : Priv)
       (respPacket certIn dec : Bytes) (am : AuthMsgV4) (m : AuthRespV4),
       makeAuthMsg C prv remote 0 nA eph = .ok am →
       C.decrypt prv respPacket = some dec → 2 ≤ dec.length →
       C.rlpDecResp (dec.drop 2) = some m →
       m.version ≠ TaiRLPXVersion →
       initiatorEncHandshake C prv remote none nA eph respPacket certIn =
         .error .versionMismatch) ∧
    (∀ (prv eph : Priv) (respNonce authPacketIn certIn dec : Bytes)
       (m : AuthMsgV4) (h : EncHandshake Priv Pub),
       C.decrypt prv authPacketIn = some dec → 2 ≤ dec.length →
       C.rlpDecAuth (dec.drop 2) = some m →
       handleAuthMsg C 0 { m with certSize := be16val (dec.take 2) } prv eph = .ok h →
       m.version ≠ TaiRLPXVersion →
       receiverEncHandshake C prv none respNonce eph authPacketIn certIn =
         .error .versionMismatch) := by
  constructor
  · intro prv remote nA eph respPacket certIn dec am m hmk hdec hlen hm hver
    rw [initiatorEncHandshake]
    simp only [hmk, readAuthResp, hdec, if_neg (by omega : ¬ dec.length < 2), hm,
      handleAuthResp]
    rw [if_pos (by simpa using hver)]
  · intro prv eph respNonce authPacketIn certIn dec m h hdec hlen hm hhs hver
    rw [receiverEncHandshake]
    simp only [readAuthMsg, hdec, if_neg (by omega : ¬ dec.length < 2), hm, hhs]
    rw [if_pos (by simpa using hver)]

/-- Counterexample to C6 as stated: versions are checked against the
constant, not against each other, and the receiver writes its response and
derives Secrets before/without ever seeing the response version.  In this
concrete run the auth message carries version 15 and the auth-response
delivered to the initiator carries version 14 — the version fields of the
two messages are not bit-identical — yet the receiver side completes and
produces Secrets; only the initiator fails. -/
theorem C6_counterexample :
    (15 : Nat) ≠ 14 ∧
    (∃ s writes, receiverEncHandshake natCrypto 3 none [6] 13
      (sealAuthMsg natCrypto 3
        { signature := 9 :: 11 :: xorBytes (List.replicate 16 15) [4],
          initiatorPubkey := (natCrypto.marshalPub (natCrypto.pubOf 5)).drop 1,
          nonce := [4], version := 15, certSize := 0 }) [] = .ok (s, writes)) ∧
    initiatorEncHandshake natCrypto 5 3 none [4] 11
      (sealAuthResp natCrypto 5
        { randomPubkey := (natCrypto.marshalPub (natCrypto.pubOf 13)).drop 1,
          nonce := [6], version := 14, certSize := 0 }) [] =
      .error .versionMismatch := by
  refine ⟨by decide, ?_, ?_⟩
  · exact ⟨_, _, rfl⟩
  · rfl

/-- Witness for C6 (amended): concrete runs in which each side receives a
version-14 message and fails with VersionMismatch. -/
theorem C6_witness :
    initiatorEncHandshake natCrypto 5 3 none [4] 11
      (sealAuthResp natCrypto 5
        { randomPubkey := (natCrypto.marshalPub (natCrypto.pubOf 13)).drop 1,
          nonce := [6], version := 14, certSize := 0 }) [] =
      .error .versionMismatch ∧
    receiverEncHandshake natCrypto 3 none [6] 13
      (sealAuthMsg natCrypto 3
        { signature := 9 :: 11 :: xorBytes (List.replicate 16 15) [4],
          initiatorPubkey := (natCrypto.marshalPub (natCrypto.pubOf 5)).drop 1,
          nonce := [4], version := 14, certSize := 0 }) [] =
      .error .versionMismatch :=
  ⟨(C6_version_gate natCrypto).1 5 3 [4] 11
      (sealAuthResp natCrypto 5
        { randomPubkey := (natCrypto.marshalPub (natCrypto.pubOf 13)).drop 1,
          nonce := [6], version := 14, certSize := 0 }) []
      (0 :: 0 :: natCrypto.rlpEncResp
        { randomPubkey := (natCrypto.marshalPub (natCrypto.pubOf 13)).drop 1,
          nonce := [6], version := 14, certSize := 0 })
      { signature := 9 :: 11 :: xorBytes (List.replicate 16 15) [4],
        initiatorPubkey := (natCrypto.marshalPub (natCrypto.pubOf 5)).drop 1,
        nonce := [4], version := TaiRLPXVersion, certSize := 0 }
      { randomPubkey := (natCrypto.marshalPub (natCrypto.pubOf 13)).drop 1,
        nonce := [6], version := 14, certSize := 0 }
      (by decide) (by decide) (by decide) (by decide) (by decide),
   (C6_version_gate natCrypto).2 3 13 [6]
      (sealAuthMsg natCrypto 3
        { signature := 9 :: 11 :: xorBytes (List.replicate 16 15) [4],
          initiatorPubkey := (natCrypto.marshalPub (natCrypto.pubOf 5)).drop 1,
          nonce := [4], version := 14, certSize := 0 }) []
      (0 :: 0 :: natCrypto.rlpEncAuth
        { signature := 9 :: 11 :: xorBytes (List.replicate 16 15) [4],
          initiatorPubkey := (natCrypto.marshalPub (natCrypto.pubOf 5)).drop 1,
          nonce := [4], version := 14, certSize := 0 })
      { signature := 9 :: 11 :: xorBytes (List.replicate 16 15) [4],
        initiatorPubkey := (natCrypto.marshalPub (natCrypto.pubOf 5)).drop 1,
        nonce := [4], version := 14, certSize := 0 }
      { certSize := 0, initiator := false, remote := 5, initNonce := [4],
        respNonce := [], randomPrivKey := 13, remoteRandomPub := 11 }
      (by decide) (by decide) (by decide) (by decide) (by decide)⟩

/-- C7: during certificate exchange, a received certificate that passes
authority verification (`VerifyCert`) but whose embedded public key
(`FromCertBytesToPubKey`) differs from the remote static public key
established by the base handshake makes the handshake fail with
CertificateIdentityMismatch (`cert not match private key`), and no Secrets
are returned — on the initiator side (where the established remote key is
the dialled one) and on the receiver side (where it is the key imported
from the auth message) alike. -/
theorem C7_cert_identity {Priv Pub : Type} [DecidableEq Pub] (C : Crypto Priv Pub) :
    (∀ (prv : Priv) (remote : Pub) (nA : Bytes) (eph : Priv)
       (c respPacket certIn dec : Bytes) (am : AuthMsgV4) (m : AuthRespV4)
       (rn : Bytes) (rp pk : Pub),
       makeAuthMsg C prv remote c.length nA eph = .ok am →
       C.decrypt prv respPacket = some dec → 2 ≤ dec.length →
       C.rlpDecResp (dec.drop 2) = some m →
       handleAuthResp C { m with certSize := be16val (dec.take 2) } = .ok (rn, rp) →
       c.length ≠ 0 →
       be16val (dec.take 2) = c.length →
       ¬ certIn.length < c.length →
       C.verifyCert (certIn.take c.length) = true →
       C.certToPub (certIn.take c.length) = some pk →
       pk ≠ remote →
       initiatorEncHandshake C prv remote (some c) nA eph respPacket certIn =
         .error .certMismatch) ∧
    (∀ (prv eph : Priv) (respNonce c authPacketIn certIn dec : Bytes)
       (m : AuthMsgV4) (h : EncHandshake Priv Pub) (pk : Pub),
       C.decrypt prv authPacketIn = some dec → 2 ≤ dec.length →
       C.rlpDecAuth (dec.drop 2) = some m →
       handleAuthMsg C c.length { m with certSize := be16val (dec.take 2) } prv eph = .ok h →
       c.length ≠ 0 →
       be16val (dec.take 2) = c.length →
       m.version = TaiRLPXVersion →
       ¬ certIn.length < c.length →
       C.verifyCert (certIn.take c.length) = true →
       C.certToPub (certIn.take c.length) = some pk →
       pk ≠ h.remote →
       receiverEncHandshake C prv (some c) respNonce eph authPacketIn certIn =
         .error .certMismatch) := by
  constructor
  · intro prv remote nA eph c respPacket certIn dec am m rn rp pk
    intro hmk hdec hlen hm hresp hc0 hcs hcl hvc hcp hne
    rw [hcs] at hresp
    rw [initiatorEncHandshake]
    simp only [hmk, readAuthResp, hdec, if_neg (by omega : ¬ dec.length < 2), hm, hresp,
      hcs, if_neg hc0, if_neg (by simp : ¬ (c.length ≠ c.length)), if_neg hcl,
      hvc, hcp, not_true, ite_false, if_true, if_pos hne]
  · intro prv eph respNonce c authPacketIn certIn dec m h pk
    intro hdec hlen hm hhs hc0 hcs hver hcl hvc hcp hne
    rw [hcs, hver] at hhs
    rw [receiverEncHandshake]
    simp only [readAuthMsg, hdec, if_neg (by omega : ¬ dec.length < 2), hm, hhs,
      hcs, if_neg hc0, if_neg (by simp : ¬ (c.length ≠ c.length)), hver,
      if_neg (by simp : ¬ (TaiRLPXVersion ≠ TaiRLPXVersion)), if_neg hcl,
      makeAuthResp, hvc, hcp, not_true, ite_false, if_true, if_pos hne]

/-- Witness for C7: concrete runs on both sides where the certificate
`[1, 99]` passes verification, embeds key 99, and fails the identity
check against the handshake-established remote key. -/
theorem C7_witness :
    initiatorEncHandshake natCrypto 5 3 (some [1, 42]) [4] 11
      (sealAuthResp natCrypto 5
        { randomPubkey := (natCrypto.marshalPub (natCrypto.pubOf 13)).drop 1,
          nonce := [6], version := 15, certSize := 2 }) [1, 99] =
      .error .certMismatch ∧
    receiverEncHandshake natCrypto 3 (some [1, 42]) [6] 13
      (sealAuthMsg natCrypto 3
        { signature := 9 :: 11 :: xorBytes (List.replicate 16 15) [4],
          initiatorPubkey := (natCrypto.marshalPub (natCrypto.pubOf 5)).drop 1,
          nonce := [4], version := 15, certSize := 2 }) [1, 99] =
      .error .certMismatch :=
  ⟨(C7_cert_identity natCrypto).1 5 3 [4] 11 [1, 42]
      (sealAuthResp natCrypto 5
        { randomPubkey := (natCrypto.marshalPub (natCrypto.pubOf 13)).drop 1,
          nonce := [6], version := 15, certSize := 2 }) [1, 99]
      (0 :: 2 :: natCrypto.rlpEncResp
        { randomPubkey := (natCrypto.marshalPub (natCrypto.pubOf 13)).drop 1,
          nonce := [6], version := 15, certSize := 2 })
      { signature := 9 :: 11 :: xorBytes (List.replicate 16 15) [4],
        initiatorPubkey := (natCrypto.marshalPub (natCrypto.pubOf 5)).drop 1,
        nonce := [4], version := TaiRLPXVersion, certSize := 2 }
      { randomPubkey := (natCrypto.marshalPub (natCrypto.pubOf 13)).drop 1,
        nonce := [6], version := 15, certSize := 0 }
      [6] 13 99
      (by decide) (by decide) (by decide) (by decide) (by decide) (by decide)
      (by decide) (by decide) (by decide) (by decide) (by decide),
   (C7_cert_identity natCrypto).2 3 13 [6] [1, 42]
      (sealAuthMsg natCrypto 3
        { signature := 9 :: 11 :: xorBytes (List.replicate 16 15) [4],
          initiatorPubkey := (natCrypto.marshalPub (natCrypto.pubOf 5)).drop 1,
          nonce := [4], version := 15, certSize := 2 }) [1, 99]
      (0 :: 2 :: natCrypto.rlpEncAuth
        { signature := 9 :: 11 :: xorBytes (List.replicate 16 15) [4],
          initiatorPubkey := (natCrypto.marshalPub (natCrypto.pubOf 5)).drop 1,
          nonce := [4], version := 15, certSize := 2 })
      { signature := 9 :: 11 :: xorBytes (List.replicate 16 15) [4],
        initiatorPubkey := (natCrypto.marshalPub (natCrypto.pubOf 5)).drop 1,
        nonce := [4], version := 15, certSize := 0 }
      { certSize := 2, initiator := false, remote := 5, initNonce := [4],
        respNonce := [], randomPrivKey := 13, remoteRandomPub := 11 }
      99
      (by decide) (by decide) (by decide) (by decide) (by decide) (by decide)
      (by decide) (by decide) (by decide) (by decide) (by decide)⟩

/-- Counterexample to C9 as stated: a ciphertext that decrypts fine but
whose plaintext does not RLP-decode as an auth message makes
`readHandshakeMsg` panic inside `decodePlain` (modelled by the
distinguished `panicked`/`panicDecode` outcome — a crash, not the
MalformedMessage error return the claim promises). -/
theorem C9_counterexample :
    natCrypto.decrypt 3 [3, 0, 0] = some [0, 0] ∧
    natCrypto.rlpDecAuth (([0, 0] : Bytes).drop 2) = none ∧
    readAuthMsg natCrypto 3 [3, 0, 0] = .panicked ∧
    receiverEncHandshake natCrypto 3 none [6] 13 [3, 0, 0] [] = .error .panicDecode := by
  decide

/-- C9 (amended): `respond` (the receiver flow) fails with
DecryptionFailure — an ordinary error return — when asymmetric decryption
of the incoming auth bytes fails, and panics (crashes in `decodePlain`,
modelled as the distinguished `panicDecode` outcome) when the decrypted
structure does not decode as a valid auth message; the analogous contract
holds for the initiator consuming the auth-response. -/
theorem C9_read_handshake_errors {Priv Pub : Type} [DecidableEq Pub] (C : Crypto Priv Pub) :
    (∀ (prv eph : Priv) (localCert : Option Bytes) (respNonce authIn certIn : Bytes),
       C.decrypt prv authIn = none →
       receiverEncHandshake C prv localCert respNonce eph authIn certIn =
         .error .decryptError) ∧
    (∀ (prv eph : Priv) (localCert : Option Bytes) (respNonce authIn certIn dec : Bytes),
       C.decrypt prv authIn = some dec → 2 ≤ dec.length →
       C.rlpDecAuth (dec.drop 2) = none →
       receiverEncHandshake C prv localCert respNonce eph authIn certIn =
         .error .panicDecode) ∧
    (∀ (prv : Priv) (remote : Pub) (nA : Bytes) (eph : Priv) (localCert : Option Bytes)
       (respPacket certIn : Bytes) (am : AuthMsgV4),
       makeAuthMsg C prv remote
         (match localCert with | some c => c.length | none => 0) nA eph = .ok am →
       C.decrypt prv respPacket = none →
       initiatorEncHandshake C prv remote localCert nA eph respPacket certIn =
         .error .decryptError) ∧
    (∀ (prv : Priv) (remote : Pub) (nA : Bytes) (eph : Priv) (localCert : Option Bytes)
       (respPacket certIn dec : Bytes) (am : AuthMsgV4),
       makeAuthMsg C prv remote
         (match localCert with | some c => c.length | none => 0) nA eph = .ok am →
       C.decrypt prv respPacket = some dec → 2 ≤ dec.length →
       C.rlpDecResp (dec.drop 2) = none →
       initiatorEncHandshake C prv remote localCert nA eph respPacket certIn =
         .error .panicDecode) := by
  refine ⟨?_, ?_, ?_, ?_⟩
  · intro prv eph localCert respNonce authIn certIn hdec
    rw [receiverEncHandshake.eq_def]
    simp only [readAuthMsg, hdec]
  · intro prv eph localCert respNonce authIn certIn dec hdec hlen hm
    rw [receiverEncHandshake.eq_def]
    simp only [readAuthMsg, hdec, if_neg (by omega : ¬ dec.length < 2), hm]
  · intro prv remote nA eph localCert respPacket certIn am hmk hdec
    rw [initiatorEncHandshake.eq_def]
    simp only [hmk, readAuthResp, hdec]
  · intro prv remote nA eph localCert respPacket certIn dec am hmk hdec hlen hm
    rw [initiatorEncHandshake.eq_def]
    simp only [hmk, readAuthResp, hdec, if_neg (by omega : ¬ dec.length < 2), hm]

/-- Witness for C9 (amended): concrete runs through all four branches. -/
theorem C9_witness :
    receiverEncHandshake natCrypto 3 none [6] 13 [9, 0, 0] [] = .error .decryptError ∧
    receiverEncHandshake natCrypto 3 none [6] 13 [3, 0, 0] [] = .error .panicDecode ∧
    initiatorEncHandshake natCrypto 5 3 none [4] 11 [9, 0, 0] [] = .error .decryptError ∧
    initiatorEncHandshake natCrypto 5 3 none [4] 11 [5, 0, 0] [] = .error .panicDecode :=
  ⟨(C9_read_handshake_errors natCrypto).1 3 13 none [6] [9, 0, 0] [] (by decide),
   (C9_read_handshake_errors natCrypto).2.1 3 13 none [6] [3, 0, 0] [] [0, 0]
     (by decide) (by decide) (by decide),
   (C9_read_handshake_errors natCrypto).2.2.1 5 3 [4] 11 none [9, 0, 0] []
     { signature := 9 :: 11 :: xorBytes (List.replicate 16 15) [4],
       initiatorPubkey := (natCrypto.marshalPub (natCrypto.pubOf 5)).drop 1,
       nonce := [4], version := TaiRLPXVersion, certSize := 0 }
     (by decide) (by decide),
   (C9_read_handshake_errors natCrypto).2.2.2 5 3 [4] 11 none [5, 0, 0] [] [0, 0]
     { signature := 9 :: 11 :: xorBytes (List.replicate 16 15) [4],
       initiatorPubkey := (natCrypto.marshalPub (natCrypto.pubOf 5)).drop 1,
       nonce := [4], version := TaiRLPXVersion, certSize := 0 }
     (by decide) (by decide) (by decide) (by decide)⟩

theorem getD_take {l : Bytes} {n i : Nat} (h : i < n) :
    (l.take n).getD i 0 = l.getD i 0 := by
  simp [List.getD, List.getElem?_take, h]

/-- C10: the helper `xor(one, other)` returns a byte slice of length
`len(one)` with byte `i` equal to `one[i] ^ other[i]`; consequently the
digest that `makeAuthMsg` signs, `xor(staticSharedSecret, initNonce)`, is
only `sskLen = 16` bytes long (the static shared secret is requested with
`sskLen`), so the signature binds only the first 16 bytes of the 32-byte
nonce: any nonce agreeing on its first 16 bytes yields the same signed
digest. -/
theorem C10_xor_binds_first16 {Priv Pub : Type} (C : Crypto Priv Pub)
    (prv : Priv) (remote : Pub) (cs : Nat) (nA : Bytes) (eph : Priv)
    (tok : Bytes) (am : AuthMsgV4)
    (hec : C.generateShared prv remote sskLen sskLen = some tok)
    (htok : tok.length = sskLen)
    (hmk : makeAuthMsg C prv remote cs nA eph = .ok am) :
    (∀ one other : Bytes, (xorBytes one other).length = one.length) ∧
    (∀ (one other : Bytes) (i : Nat), i < one.length →
      (xorBytes one other).getD i 0 = one.getD i 0 ^^^ other.getD i 0) ∧
    C.sign (xorBytes tok nA) eph = some am.signature ∧
    (xorBytes tok nA).length = 16 ∧
    (∀ nA2 : Bytes, nA2.take 16 = nA.take 16 → xorBytes tok nA2 = xorBytes tok nA) := by
  refine ⟨xorBytes_length, fun one other i h => xorBytes_getD one other i h, ?_, ?_, ?_⟩
  · cases hs : C.sign (xorBytes tok nA) eph with
    | none =>
        simp only [makeAuthMsg, hec, hs] at hmk
        exact (Except.noConfusion hmk)
    | some sig =>
        simp only [makeAuthMsg, hec, hs, Except.ok.injEq] at hmk
        subst hmk
        rfl
  · rw [xorBytes_length, htok]
    rfl
  · intro nA2 ht
    unfold xorBytes
    rw [htok]
    apply List.map_congr_left
    intro i hi
    have hi16 : i < 16 := by
      have := List.mem_range.mp hi
      simpa [sskLen] using this
    have h1 : (nA2.take 16).getD i 0 = (nA.take 16).getD i 0 := by rw [ht]
    rw [getD_take hi16, getD_take hi16] at h1
    rw [h1]

/-- Witness for C10: concrete evaluation, `tok` of length 16, nonce of
length 32. -/
theorem C10_witness :
    (∀ one other : Bytes, (xorBytes one other).length = one.length) ∧
    (∀ (one other : Bytes) (i : Nat), i < one.length →
      (xorBytes one other).getD i 0 = one.getD i 0 ^^^ other.getD i 0) ∧
    natCrypto.sign (xorBytes (List.replicate 16 15) (List.range 32)) 11 =
      some ({ signature := 9 :: 11 :: xorBytes (List.replicate 16 15) (List.range 32),
              initiatorPubkey := (natCrypto.marshalPub (natCrypto.pubOf 5)).drop 1,
              nonce := List.range 32, version := TaiRLPXVersion,
              certSize := 0 } : AuthMsgV4).signature ∧
    (xorBytes (List.replicate 16 15) (List.range 32)).length = 16 ∧
    (∀ nA2 : Bytes, nA2.take 16 = (List.range 32).take 16 →
      xorBytes (List.replicate 16 15) nA2 = xorBytes (List.replicate 16 15) (List.range 32)) :=
  C10_xor_binds_first16 natCrypto 5 3 0 (List.range 32) 11 (List.replicate 16 15)
    { signature := 9 :: 11 :: xorBytes (List.replicate 16 15) (List.range 32),
      initiatorPubkey := (natCrypto.marshalPub (natCrypto.pubOf 5)).drop 1,
      nonce := List.range 32, version := TaiRLPXVersion, certSize := 0 }
    (by decide) (by decide) (by decide)

/-! ## Tamper detection (claim C5) -/

theorem getD_append_left {x y : Bytes} {n : Nat} (h : n < x.length) :
    (x ++ y).getD n 0 = x.getD n 0 := by
  simp [List.getD, List.getElem?_append, h]

theorem getD_append_right {x y : Bytes} {n : Nat} (h : x.length ≤ n) :
    (x ++ y).getD n 0 = y.getD (n - x.length) 0 := by
  simp [List.getD, List.getElem?_append, Nat.not_lt.mpr h]

theorem getD_set_self (b : Bytes) (j c : Nat) (h : j < b.length) :
    (b.set j c).getD j 0 = c := by
  simp [List.getD, List.getElem?_set_self h]

theorem set_ne_self (b : Bytes) (j c : Nat) (h : j < b.length) (hc : c ≠ b.getD j 0) :
    b.set j c ≠ b := by
  intro he
  apply hc
  rw [← getD_set_self b j c h, he]

theorem append_ne_of_left_ne {x y a b : Bytes} (hl : x.length = y.length) (hne : x ≠ y) :
    x ++ a ≠ y ++ b := by
  intro he
  apply hne
  have h1 := congrArg (List.take x.length) he
  rwa [List.take_left' rfl, hl, List.take_left' rfl] at h1

theorem cons_append_ne_of_right_ne {x a b : Bytes} (hne : a ≠ b) : x ++ a ≠ x ++ b :=
  fun he => hne (List.append_cancel_left he)

theorem xor_left_ne (v : Nat) {a c : Nat} (h : a ≠ c) : v ^^^ a ≠ v ^^^ c := by
  intro he
  apply h
  have h1 := congrArg (fun z => v ^^^ z) he
  simpa [← Nat.xor_assoc, Nat.xor_self, Nat.zero_xor] using h1

theorem ne_of_getD_ne {x y : Bytes} (j : Nat) (h : x.getD j 0 ≠ y.getD j 0) : x ≠ y :=
  fun he => h (by rw [he])

/-- The frame size `readFrame` decodes from the header of `input`. -/
def rfFsize (P : FramePrims) (st : FrameState) (input : Bytes) : Nat :=
  readInt24 (ctrEnc P.ks st.decPos (input.take 16))

/-- The padded frame size `readFrame` reads from the connection. -/
def rfRsize (P : FramePrims) (st : FrameState) (input : Bytes) : Nat :=
  rfFsize P st input + padLen (rfFsize P st input)

/-- `ReadMsg` rejects any input whose recomputed header MAC differs from
the received one, before the decrypted length is consulted: the result is
`bad header MAC` no matter what the remaining bytes hold. -/
theorem readFrame_badHeader (P : FramePrims) (st : FrameState) (input : Bytes)
    (hlen : ¬ input.length < 32)
    (hne : (updateMAC P.keccak P.blockEnc st.ingress (input.take 16)).2 ≠
      (input.drop 16).take 16) :
    readFrame P st input = .error .badHeaderMac := by
  simp only [readFrame, if_neg hlen, if_pos hne]

/-- `ReadMsg` rejects any input whose header MAC verifies but whose
recomputed frame MAC differs from the received one, before the decrypted
frame content is consulted: the result is `bad frame MAC` no matter
whether the content would decode. -/
theorem readFrame_badFrame (P : FramePrims) (st : FrameState) (input : Bytes)
    (hlen : ¬ input.length < 32)
    (heq : (updateMAC P.keccak P.blockEnc st.ingress (input.take 16)).2 =
      (input.drop 16).take 16)
    (hrest : ¬ (input.drop 32).length < rfRsize P st input)
    (hrest2 : ¬ ((input.drop 32).drop (rfRsize P st input)).length < 16)
    (hne : (updateMAC P.keccak P.blockEnc
        ((updateMAC P.keccak P.blockEnc st.ingress (input.take 16)).1 ++
          (input.drop 32).take (rfRsize P st input))
        (P.keccak ((updateMAC P.keccak P.blockEnc st.ingress (input.take 16)).1 ++
          (input.drop 32).take (rfRsize P st input)))).2 ≠
      ((input.drop 32).drop (rfRsize P st input)).take 16) :
    readFrame P st input = .error .badFrameMac := by
  simp only [rfRsize, rfFsize] at hrest hrest2 hne
  simp only [readFrame, if_neg hlen, if_neg (not_not_intro heq), if_neg hrest,
    if_neg hrest2, if_pos hne]

/-- C5: `readFrame` verifies the header MAC before using the decrypted
length field (first conjunct: a header-MAC mismatch yields `badHeaderMac`
whatever the rest of the input holds) and verifies the trailer MAC before
using the decrypted body (second conjunct: a frame-MAC mismatch yields
`badFrameMac` whether or not the content would decode); and — under the
ideal-primitive hypotheses that the truncated hash is injective and the
whitening cipher emits 16-byte blocks — corrupting any single byte of a
transmitted frame (header, header MAC, body, or trailer MAC regions; in
particular flipping any single bit) makes `readFrame` on the matched
reader fail with one of the two MacMismatch errors rather than return
data (third conjunct). -/
theorem C5_tamper_detection (P : FramePrims) (stW stR : FrameState) (msg : Msg)
    (hH : ∀ b, (P.keccak b).length = 32)
    (hInj : Function.Injective fun b => (P.keccak b).take 16)
    (hBlock : ∀ b, (P.blockEnc b).length = 16)
    (hpos : stR.decPos = stW.encPos) (hing : stR.ingress = stW.egress)
    (hsize : wfFsize msg ≤ maxUint24) :
    (∀ input : Bytes, ¬ input.length < 32 →
       (updateMAC P.keccak P.blockEnc stR.ingress (input.take 16)).2 ≠
         (input.drop 16).take 16 →
       readFrame P stR input = .error .badHeaderMac) ∧
    (∀ input : Bytes, ¬ input.length < 32 →
       (updateMAC P.keccak P.blockEnc stR.ingress (input.take 16)).2 =
         (input.drop 16).take 16 →
       ¬ (input.drop 32).length < rfRsize P stR input →
       ¬ ((input.drop 32).drop (rfRsize P stR input)).length < 16 →
       (updateMAC P.keccak P.blockEnc
         ((updateMAC P.keccak P.blockEnc stR.ingress (input.take 16)).1 ++
           (input.drop 32).take (rfRsize P stR input))
         (P.keccak ((updateMAC P.keccak P.blockEnc stR.ingress (input.take 16)).1 ++
           (input.drop 32).take (rfRsize P stR input)))).2 ≠
         ((input.drop 32).drop (rfRsize P stR input)).take 16 →
       readFrame P stR input = .error .badFrameMac) ∧
    (∀ (i c : Nat), i < (wfWire P stW msg).length →
       c ≠ (wfWire P stW msg).getD i 0 →
       readFrame P stR ((wfWire P stW msg).set i c) = .error .badHeaderMac ∨
       readFrame P stR ((wfWire P stW msg).set i c) = .error .badFrameMac) := by
  refine ⟨fun input h1 h2 => readFrame_badHeader P stR input h1 h2,
    fun input h1 h2 h3 h4 h5 => readFrame_badFrame P stR input h1 h2 h3 h4 h5, ?_⟩
  intro i c hi hc
  have lA : (wfHeadEnc P stW msg).length = 16 := wfHeadEnc_length P stW msg
  have lT1 : (wfHmac P stW msg).2.length = 16 := by
    rw [wfHmac]; exact updateMAC_tag_length hH _ _
  have lT2 : (wfFmac P stW msg).2.length = 16 := by
    rw [wfFmac]; exact updateMAC_tag_length hH _ _
  have lBo : (wfBodyEnc P stW msg).length = (wfBody msg).length := by simp [wfBodyEnc]
  have hW : wfWire P stW msg = wfHeadEnc P stW msg ++ ((wfHmac P stW msg).2 ++
      (wfBodyEnc P stW msg ++ (wfFmac P stW msg).2)) := by
    simp [wfWire, fit16_eq_self lT1, List.append_assoc]
  have hLen : (wfWire P stW msg).length = 48 + (wfBody msg).length := by
    rw [hW]
    simp only [List.length_append, lA, lT1, lT2, lBo]
    omega
  have hT1eq : (wfHmac P stW msg).2 =
      (updateMAC P.keccak P.blockEnc stW.egress (wfHeadEnc P stW msg)).2 := rfl
  have hM1eq : (wfHmac P stW msg).1 =
      (updateMAC P.keccak P.blockEnc stW.egress (wfHeadEnc P stW msg)).1 := rfl
  have hT2eq : (wfFmac P stW msg).2 =
      (updateMAC P.keccak P.blockEnc
        ((wfHmac P stW msg).1 ++ wfBodyEnc P stW msg)
        (P.keccak ((wfHmac P stW msg).1 ++ wfBodyEnc P stW msg))).2 := rfl
  rcases Nat.lt_or_ge i 16 with h16 | h16
  · -- corruption inside the encrypted header
    have hset : (wfWire P stW msg).set i c =
        (wfHeadEnc P stW msg).set i c ++ ((wfHmac P stW msg).2 ++
          (wfBodyEnc P stW msg ++ (wfFmac P stW msg).2)) := by
      rw [hW]
      exact List.set_append_left i c (by rw [lA]; exact h16)
    left
    apply readFrame_badHeader
    · rw [hset]
      simp only [List.length_append, List.length_set, lA, lT1, lT2, lBo]
      omega
    · have htk : ((wfWire P stW msg).set i c).take 16 = (wfHeadEnc P stW msg).set i c := by
        rw [hset]; exact List.take_left' (by rw [List.length_set, lA])
      have hdk : (((wfWire P stW msg).set i c).drop 16).take 16 = (wfHmac P stW msg).2 := by
        rw [hset, List.drop_left' (by rw [List.length_set, lA])]
        exact List.take_left' lT1
      rw [htk, hdk, hing, hT1eq]
      have hcA : c ≠ (wfHeadEnc P stW msg).getD i 0 := by
        have h1 : (wfWire P stW msg).getD i 0 = (wfHeadEnc P stW msg).getD i 0 := by
          rw [hW]; exact getD_append_left (by rw [lA]; exact h16)
        rw [h1] at hc
        exact hc
      have habne : xorBytes (P.blockEnc ((P.keccak stW.egress).take 16))
          ((wfHeadEnc P stW msg).set i c) ≠
          xorBytes (P.blockEnc ((P.keccak stW.egress).take 16)) (wfHeadEnc P stW msg) := by
        apply ne_of_getD_ne i
        rw [xorBytes_getD _ _ i (by rw [hBlock]; exact h16),
            xorBytes_getD _ _ i (by rw [hBlock]; exact h16)]
        apply xor_left_ne
        rw [getD_set_self _ i c (by rw [lA]; exact h16)]
        exact hcA
      have hstne : stW.egress ++ xorBytes (P.blockEnc ((P.keccak stW.egress).take 16))
          ((wfHeadEnc P stW msg).set i c) ≠
          stW.egress ++ xorBytes (P.blockEnc ((P.keccak stW.egress).take 16))
            (wfHeadEnc P stW msg) := cons_append_ne_of_right_ne habne
      exact fun he => (hInj.ne hstne) (by simpa [updateMAC] using he)
  rcases Nat.lt_or_ge i 32 with h32 | h32
  · -- corruption inside the header MAC
    have hset : (wfWire P stW msg).set i c =
        wfHeadEnc P stW msg ++ (((wfHmac P stW msg).2).set (i - 16) c ++
          (wfBodyEnc P stW msg ++ (wfFmac P stW msg).2)) := by
      rw [hW, List.set_append_right i c (by rw [lA]; exact h16), lA]
      congr 1
      exact List.set_append_left (i - 16) c (by rw [lT1]; omega)
    left
    apply readFrame_badHeader
    · rw [hset]
      simp only [List.length_append, List.length_set, lA, lT1, lT2, lBo]
      omega
    · have htk : ((wfWire P stW msg).set i c).take 16 = wfHeadEnc P stW msg := by
        rw [hset]; exact List.take_left' lA
      have hdk : (((wfWire P stW msg).set i c).drop 16).take 16 =
          ((wfHmac P stW msg).2).set (i - 16) c := by
        rw [hset, List.drop_left' lA]
        exact List.take_left' (by rw [List.length_set, lT1])
      rw [htk, hdk, hing, ← hT1eq]
      have hcT : c ≠ ((wfHmac P stW msg).2).getD (i - 16) 0 := by
        have h1 : (wfWire P stW msg).getD i 0 = ((wfHmac P stW msg).2).getD (i - 16) 0 := by
          rw [hW, getD_append_right (by rw [lA]; exact h16), lA]
          exact getD_append_left (by rw [lT1]; omega)
        rw [h1] at hc
        exact hc
      exact (set_ne_self _ (i - 16) c (by rw [lT1]; omega) hcT).symm
  -- the header block (first 32 bytes) is intact in the remaining cases
  have htk : ((wfWire P stW msg).set i c).take 16 = wfHeadEnc P stW msg := by
    rw [hW, List.set_append_right i c (by rw [lA]; omega),
      List.set_append_right (i - (wfHeadEnc P stW msg).length) c (by rw [lA, lT1]; omega)]
    exact List.take_left' lA
  have hdk : (((wfWire P stW msg).set i c).drop 16).take 16 = (wfHmac P stW msg).2 := by
    rw [hW, List.set_append_right i c (by rw [lA]; omega),
      List.set_append_right (i - (wfHeadEnc P stW msg).length) c (by rw [lA, lT1]; omega),
      List.drop_left' lA]
    exact List.take_left' lT1
  have heq : (updateMAC P.keccak P.blockEnc stR.ingress
      (((wfWire P stW msg).set i c).take 16)).2 =
      ((((wfWire P stW msg).set i c)).drop 16).take 16 := by
    rw [htk, hdk, hing, hT1eq]
  have hfs : rfFsize P stR ((wfWire P stW msg).set i c) = wfFsize msg := by
    rw [rfFsize, htk, hpos, wfHeadEnc, ctrEnc_involutive, wfHeadPlain, List.append_assoc]
    exact readInt24_putInt24 _ (by have := hsize; unfold maxUint24 at this; omega) _
  have hrs : rfRsize P stR ((wfWire P stW msg).set i c) = (wfBody msg).length := by
    rw [rfRsize, hfs, wfBody_length]
  rcases Nat.lt_or_ge i (32 + (wfBody msg).length) with h48 | h48
  · -- corruption inside the encrypted body
    have hset : (wfWire P stW msg).set i c =
        wfHeadEnc P stW msg ++ ((wfHmac P stW msg).2 ++
          ((wfBodyEnc P stW msg).set (i - 32) c ++ (wfFmac P stW msg).2)) := by
      rw [hW, List.set_append_right i c (by rw [lA]; omega), lA,
        List.set_append_right (i - 16) c (by rw [lT1]; omega), lT1]
      congr 2
      rw [show i - 16 - 16 = i - 32 by omega]
      exact List.set_append_left (i - 32) c (by rw [lBo]; omega)
    have hdrop : ((wfWire P stW msg).set i c).drop 32 =
        (wfBodyEnc P stW msg).set (i - 32) c ++ (wfFmac P stW msg).2 := by
      rw [hset, ← List.append_assoc]
      exact List.drop_left'
        (show (wfHeadEnc P stW msg ++ (wfHmac P stW msg).2).length = 32 by
          rw [List.length_append, lA, lT1])
    right
    apply readFrame_badFrame
    · rw [hset]
      simp only [List.length_append, List.length_set, lA, lT1, lT2, lBo]
      omega
    · exact heq
    · rw [hdrop, hrs]
      simp only [List.length_append, List.length_set, lBo, lT2]
      omega
    · rw [hdrop, hrs, List.drop_left' (by rw [List.length_set, lBo]), lT2]
      omega
    · rw [hdrop, hrs, htk, hing, ← hM1eq,
        List.take_left' (by rw [List.length_set, lBo]),
        List.drop_left' (by rw [List.length_set, lBo]), ← lT2, List.take_length]
      have hcB : c ≠ (wfBodyEnc P stW msg).getD (i - 32) 0 := by
        have h1 : (wfWire P stW msg).getD i 0 = (wfBodyEnc P stW msg).getD (i - 32) 0 := by
          rw [hW, getD_append_right (by rw [lA]; omega), lA,
            getD_append_right (by rw [lT1]; omega), lT1,
            show i - 16 - 16 = i - 32 by omega]
          exact getD_append_left (by rw [lBo]; omega)
        rw [h1] at hc
        exact hc
      have hSne : (wfHmac P stW msg).1 ++ (wfBodyEnc P stW msg).set (i - 32) c ≠
          (wfHmac P stW msg).1 ++ wfBodyEnc P stW msg :=
        cons_append_ne_of_right_ne (set_ne_self _ (i - 32) c (by rw [lBo]; omega) hcB)
      have hfullne : ((wfHmac P stW msg).1 ++ (wfBodyEnc P stW msg).set (i - 32) c) ++
          xorBytes (P.blockEnc ((P.keccak ((wfHmac P stW msg).1 ++
            (wfBodyEnc P stW msg).set (i - 32) c)).take 16))
            (P.keccak ((wfHmac P stW msg).1 ++ (wfBodyEnc P stW msg).set (i - 32) c)) ≠
          ((wfHmac P stW msg).1 ++ wfBodyEnc P stW msg) ++
          xorBytes (P.blockEnc ((P.keccak ((wfHmac P stW msg).1 ++
            wfBodyEnc P stW msg)).take 16))
            (P.keccak ((wfHmac P stW msg).1 ++ wfBodyEnc P stW msg)) := by
        apply append_ne_of_left_ne _ hSne
        simp only [List.length_append, List.length_set]
      rw [hT2eq]
      exact fun he => (hInj.ne hfullne) (by simpa [updateMAC] using he)
  · -- corruption inside the frame MAC
    have hset : (wfWire P stW msg).set i c =
        wfHeadEnc P stW msg ++ ((wfHmac P stW msg).2 ++
          (wfBodyEnc P stW msg ++ ((wfFmac P stW msg).2).set (i - 32 - (wfBody msg).length) c)) := by
      rw [hW, List.set_append_right i c (by rw [lA]; omega), lA,
        List.set_append_right (i - 16) c (by rw [lT1]; omega), lT1,
        List.set_append_right (i - 16 - 16) c (by rw [lBo]; omega), lBo,
        show i - 16 - 16 - (wfBody msg).length = i - 32 - (wfBody msg).length by omega]
    have hdrop : ((wfWire P stW msg).set i c).drop 32 =
        wfBodyEnc P stW msg ++ ((wfFmac P stW msg).2).set (i - 32 - (wfBody msg).length) c := by
      rw [hset, ← List.append_assoc]
      exact List.drop_left'
        (show (wfHeadEnc P stW msg ++ (wfHmac P stW msg).2).length = 32 by
          rw [List.length_append, lA, lT1])
    right
    apply readFrame_badFrame
    · rw [hset]
      simp only [List.length_append, List.length_set, lA, lT1, lT2, lBo]
      omega
    · exact heq
    · rw [hdrop, hrs]
      simp only [List.length_append, List.length_set, lBo, lT2]
      omega
    · rw [hdrop, hrs, List.drop_left' lBo, List.length_set, lT2]
      omega
    · rw [hdrop, hrs, htk, hing, ← hM1eq, List.take_left' lBo, List.drop_left' lBo, ← hT2eq]
      have hlen2 : (((wfFmac P stW msg).2).set (i - 32 - (wfBody msg).length) c).length = 16 := by
        rw [List.length_set, lT2]
      rw [← hlen2, List.take_length]
      have hcT2 : c ≠ ((wfFmac P stW msg).2).getD (i - 32 - (wfBody msg).length) 0 := by
        have h1 : (wfWire P stW msg).getD i 0 =
            ((wfFmac P stW msg).2).getD (i - 32 - (wfBody msg).length) 0 := by
          rw [hW, getD_append_right (by rw [lA]; omega), lA,
            getD_append_right (by rw [lT1]; omega), lT1,
            getD_append_right (by rw [lBo]; omega), lBo,
            show i - 16 - 16 - (wfBody msg).length = i - 32 - (wfBody msg).length by omega]
        rw [h1] at hc
        exact hc
      exact (set_ne_self _ _ c (by rw [lT2]; rw [hLen] at hi; omega) hcT2).symm

/-! A computable injective 16-prefix hash over `Nat` byte lists, used to
instantiate the ideal-primitive hypotheses of the tamper theorem on a
concrete run: a self-delimiting base-4 encoding packs the whole input into
the first output slot. -/

/-- Binary digits, least significant first, with structural fuel. -/
def bitsF : Nat → Nat → Bytes
  | 0, _ => []
  | _ + 1, 0 => []
  | f + 1, n + 1 => ((n + 1) % 2) :: bitsF f ((n + 1) / 2)

/-- Binary digits of `n`, least significant first. -/
def bits (n : Nat) : Bytes := bitsF n n

theorem bitsF_fuel : ∀ f g n : Nat, n ≤ f → n ≤ g → bitsF f n = bitsF g n := by
  intro f
  induction f with
  | zero =>
      intro g n hf _
      interval_cases n
      cases g
      · rfl
      · rfl
  | succ f ih =>
      intro g n hf hg
      match g, n with
      | 0, n => interval_cases n; rfl
      | g + 1, 0 => rfl
      | g + 1, n + 1 =>
          have hd : (n + 1) / 2 ≤ n :=
            Nat.lt_succ_iff.mp (Nat.div_lt_self (Nat.succ_pos n) (by omega))
          simp only [bitsF]
          rw [ih g ((n + 1) / 2) (by omega) (by omega)]

theorem bits_succ (n : Nat) : bits (n + 1) = ((n + 1) % 2) :: bits ((n + 1) / 2) := by
  have hd : (n + 1) / 2 ≤ n :=
    Nat.lt_succ_iff.mp (Nat.div_lt_self (Nat.succ_pos n) (by omega))
  simp only [bits, bitsF]
  rw [bitsF_fuel n ((n + 1) / 2) ((n + 1) / 2) (by omega) (le_refl _)]

/-- Value of a least-significant-first binary digit list. -/
def val2 : Bytes → Nat
  | [] => 0
  | d :: ds => d + 2 * val2 ds

theorem val2_bits (n : Nat) : val2 (bits n) = n := by
  induction n using Nat.strong_induction_on with
  | _ n ih =>
      match n with
      | 0 => rfl
      | n + 1 =>
          rw [bits_succ, val2, ih ((n + 1) / 2) (Nat.div_lt_self (Nat.succ_pos n) (by omega))]
          omega

theorem bits_inj : Function.Injective bits := fun a b h => by
  rw [← val2_bits a, h, val2_bits]

theorem bits_lt (n : Nat) : ∀ d ∈ bits n, d < 2 := by
  induction n using Nat.strong_induction_on with
  | _ n ih =>
      match n with
      | 0 => intro d hd; exact absurd hd (by simp [bits, bitsF])
      | n + 1 =>
          rw [bits_succ]
          intro d hd
          rcases List.mem_cons.mp hd with h | h
          · subst h; omega
          · exact ih ((n + 1) / 2) (Nat.div_lt_self (Nat.succ_pos n) (by omega)) d h

/-- Self-delimiting encoding of a list: binary digits of each element
followed by the delimiter digit 2. -/
def encL : List Nat → Bytes
  | [] => []
  | a :: t => bits a ++ (2 :: encL t)

theorem delim_split : ∀ xs ys t1 t2 : Bytes, (∀ d ∈ xs, d < 2) → (∀ d ∈ ys, d < 2) →
    xs ++ (2 :: t1) = ys ++ (2 :: t2) → xs = ys ∧ t1 = t2 := by
  intro xs
  induction xs with
  | nil =>
      intro ys t1 t2 _ hys he
      cases ys with
      | nil => simpa using he
      | cons y ys =>
          simp only [List.nil_append, List.cons_append, List.cons.injEq] at he
          have : y < 2 := hys y (by simp)
          omega
  | cons x xs ih =>
      intro ys t1 t2 hxs hys he
      cases ys with
      | nil =>
          simp only [List.cons_append, List.nil_append, List.cons.injEq] at he
          have : x < 2 := hxs x (by simp)
          omega
      | cons y ys =>
          simp only [List.cons_append, List.cons.injEq] at he
          obtain ⟨hxy, he2⟩ := he
          obtain ⟨h1, h2⟩ := ih ys t1 t2 (fun d hd => hxs d (by simp [hd]))
            (fun d hd => hys d (by simp [hd])) he2
          exact ⟨by rw [hxy, h1], h2⟩

theorem encL_inj : Function.Injective encL := by
  intro a
  induction a with
  | nil =>
      intro b h
      cases b with
      | nil => rfl
      | cons y t =>
          exfalso
          have : (encL [] : Bytes).length = (encL (y :: t)).length := by rw [h]
          simp [encL] at this
          omega
  | cons x s ih =>
      intro b h
      cases b with
      | nil =>
          exfalso
          have : (encL (x :: s)).length = (encL [] : Bytes).length := by rw [h]
          simp [encL] at this
      | cons y t =>
          simp only [encL] at h
          obtain ⟨h1, h2⟩ := delim_split _ _ _ _ (bits_lt x) (bits_lt y) h
          rw [bits_inj h1, ih h2]

/-- Value of a least-significant-first base-4 digit list. -/
def val4 : Bytes → Nat
  | [] => 0
  | d :: ds => d + 4 * val4 ds

/-- The most significant digit (last entry) is nonzero, vacuous for `[]`. -/
def lastNZ : Bytes → Prop
  | [] => True
  | [d] => d ≠ 0
  | _ :: d :: ds => lastNZ (d :: ds)

theorem lastNZ_cons {x : Nat} {l : Bytes} (hl : l ≠ []) (h : lastNZ (x :: l)) : lastNZ l := by
  cases l with
  | nil => exact absurd rfl hl
  | cons d ds => exact h

theorem val4_pos : ∀ ds : Bytes, ds ≠ [] → lastNZ ds → 0 < val4 ds := by
  intro ds
  induction ds with
  | nil => intro h; exact absurd rfl h
  | cons d t ih =>
      intro _ h
      cases t with
      | nil =>
          have : d ≠ 0 := h
          simp [val4]
          omega
      | cons e es =>
          have h2 := ih (by simp) (lastNZ_cons (by simp) h)
          simp only [val4] at h2 ⊢
          omega

theorem val4_inj : ∀ ds es : Bytes, (∀ d ∈ ds, d < 4) → (∀ d ∈ es, d < 4) →
    lastNZ ds → lastNZ es → val4 ds = val4 es → ds = es := by
  intro ds
  induction ds with
  | nil =>
      intro es _ hes _ hlz he
      cases es with
      | nil => rfl
      | cons e t =>
          exfalso
          have h2 := val4_pos (e :: t) (by simp) hlz
          simp only [val4] at he h2
          omega
  | cons d t ih =>
      intro es hds hes hlzd hlze he
      cases es with
      | nil =>
          exfalso
          have h2 := val4_pos (d :: t) (by simp) hlzd
          simp only [val4] at he h2
          omega
      | cons e u =>
          simp only [val4] at he
          have hd4 : d < 4 := hds d (by simp)
          have he4 : e < 4 := hes e (by simp)
          have hde : d = e := by omega
          have hval : val4 t = val4 u := by omega
          subst hde
          cases t with
          | nil =>
              cases u with
              | nil => rfl
              | cons u1 us =>
                  exfalso
                  have h2 := val4_pos (u1 :: us) (by simp) (lastNZ_cons (by simp) hlze)
                  simp only [val4] at hval h2
                  omega
          | cons t1 ts =>
              cases u with
              | nil =>
                  exfalso
                  have h2 := val4_pos (t1 :: ts) (by simp) (lastNZ_cons (by simp) hlzd)
                  simp only [val4] at hval h2
                  omega
              | cons u1 us =>
                  have := ih (u1 :: us) (fun x hx => hds x (by simp [hx]))
                    (fun x hx => hes x (by simp [hx]))
                    (lastNZ_cons (by simp) hlzd) (lastNZ_cons (by simp) hlze) hval
                  rw [this]

theorem encL_lt4 (x : List Nat) : ∀ d ∈ encL x, d < 4 := by
  induction x with
  | nil => intro d hd; exact absurd hd (by simp [encL])
  | cons a t ih =>
      intro d hd
      simp only [encL, List.mem_append, List.mem_cons] at hd
      rcases hd with h | h | h
      · exact lt_trans (bits_lt a d h) (by omega)
      · omega
      · exact ih d h

theorem lastNZ_append (xs : Bytes) : ∀ ys : Bytes, ys ≠ [] → lastNZ ys → lastNZ (xs ++ ys) := by
  induction xs with
  | nil => intro ys _ h; simpa using h
  | cons x t ih =>
      intro ys hne h
      have h2 := ih ys hne h
      have hl : t ++ ys ≠ [] := by
        simp only [ne_eq, List.append_eq_nil]
        rintro ⟨_, h3⟩
        exact hne h3
      cases hq : t ++ ys with
      | nil => exact absurd hq hl
      | cons z zs =>
          show lastNZ (x :: t ++ ys)
          rw [List.cons_append, hq]
          show lastNZ (z :: zs)
          rw [← hq]
          exact h2

theorem encL_lastNZ (x : List Nat) : lastNZ (encL x) := by
  induction x with
  | nil => trivial
  | cons a t ih =>
      show lastNZ (bits a ++ (2 :: encL t))
      apply lastNZ_append _ _ (by simp)
      cases hq : encL t with
      | nil => exact (by omega : (2 : Nat) ≠ 0)
      | cons e es =>
          show lastNZ (e :: es)
          rw [← hq]
          exact ih

/-- Injective packing of a byte list into one natural number. -/
def encNat (x : List Nat) : Nat := val4 (encL x)

theorem encNat_inj : Function.Injective encNat := fun a b h =>
  encL_inj (val4_inj _ _ (encL_lt4 a) (encL_lt4 b) (encL_lastNZ a) (encL_lastNZ b) h)

/-- Injective-prefix concrete hash: the whole input packed into the first
of 32 slots. -/
def toyH (x : Bytes) : Bytes := encNat x :: List.replicate 31 0

theorem toyH_length (x : Bytes) : (toyH x).length = 32 := by simp [toyH]

theorem toyH_inj16 : Function.Injective fun b => (toyH b).take 16 := by
  intro a b h
  simp only [toyH, List.take_succ_cons, List.take_replicate, List.cons.injEq] at h
  exact encNat_inj h.1

/-- Concrete primitives with the injective-prefix hash, for the tamper
witness. -/
def tamperPrims : FramePrims where
  ks := fun _ => 0
  keccak := toyH
  blockEnc := fun b => (b ++ List.replicate 16 0).take 16
  compress := fun b => b
  decodedLen := fun _ => none
  decompress := fun _ => none

/-- Witness for C5: corrupting byte 0 of a concretely transmitted frame
makes the matched reader fail with a MacMismatch error. -/
theorem C5_witness :
    readFrame tamperPrims st0 ((wfWire tamperPrims st0 { code := 0, payload := [] }).set 0 1) =
      .error .badHeaderMac ∨
    readFrame tamperPrims st0 ((wfWire tamperPrims st0 { code := 0, payload := [] }).set 0 1) =
      .error .badFrameMac :=
  (C5_tamper_detection tamperPrims st0 st0 { code := 0, payload := [] }
    (fun b => toyH_length b) toyH_inj16
    (fun b => by
      simp only [tamperPrims, List.length_take, List.length_append, List.length_replicate]
      omega)
    rfl rfl (by decide)).2.2 0 1 (by decide) (by decide)

end Rlpx
